import Mathlib

/-!
# GxGDE060BA: a shallow embedding of the e-paper display class

The embedding follows `src/GxGDE060BA/GxGDE060BA.cpp`.  The two frame buffers
live in the external SRAM and are reached through the two pointers
`p_active_buffer` and `p_erase_buffer`; bytes are natural numbers, pixel
coordinates are integers (`int16_t` in the source, promoted to `int` in every
expression), and every call of the parallel transport is recorded as an event.
-/

namespace GxGDE060BA

/-! ## Constants of the absent headers -/

/-- Modelled from the spec: `GxGDE060BA_WIDTH` is a macro of the header
`GxGDE060BA.h`, which is not part of the sources; the panel is the 800 x 600
panel named in the head comment of the source file. -/
abbrev GxGDE060BA_WIDTH : Nat := 800

/-- Modelled from the spec: `GxGDE060BA_HEIGHT`, a macro of the absent header. -/
abbrev GxGDE060BA_HEIGHT : Nat := 600

/-- Modelled from the spec: `GxGDE060BA_BUFFER_SIZE`, a macro of the absent
header: two bits per pixel, `ceil(width*height*2/8)` bytes. -/
abbrev GxGDE060BA_BUFFER_SIZE : Nat := GxGDE060BA_WIDTH * GxGDE060BA_HEIGHT / 4

/-- Modelled from the spec: `sizeof(epd_buffer_type)`; the type is declared in
the absent header, each of the two buffers has 800*600/4 bytes. -/
abbrev sizeof_epd_buffer_type : Nat := GxGDE060BA_BUFFER_SIZE

/-- Modelled from the spec: `WAVE_TABLE_SIZE`, a macro of the absent header:
the expanded tables have one row for every packed byte value in [0,255]. -/
abbrev WAVE_TABLE_SIZE : Nat := 256

/-- The four named grey levels `GxEPD_BLACK`, `GxEPD_DARKGREY`,
`GxEPD_LIGHTGREY`, `GxEPD_WHITE` are macros of the base class header, which is
not part of the sources: they are parameters of the embedding. -/
structure Palette where
  GxEPD_BLACK : Nat
  GxEPD_DARKGREY : Nat
  GxEPD_LIGHTGREY : Nat
  GxEPD_WHITE : Nat

/-- The four named grey levels are four different colour values. -/
def Palette.Distinct (pal : Palette) : Prop :=
  pal.GxEPD_BLACK ≠ pal.GxEPD_WHITE ∧ pal.GxEPD_BLACK ≠ pal.GxEPD_DARKGREY ∧
  pal.GxEPD_BLACK ≠ pal.GxEPD_LIGHTGREY ∧ pal.GxEPD_WHITE ≠ pal.GxEPD_DARKGREY ∧
  pal.GxEPD_WHITE ≠ pal.GxEPD_LIGHTGREY ∧ pal.GxEPD_DARKGREY ≠ pal.GxEPD_LIGHTGREY

/-- The seed tables `wave_begin_60[4][GxGDE060BA_FRAME_BEGIN_SIZE]` and
`wave_end_60[4][GxGDE060BA_FRAME_END_SIZE]` and their two widths are declared
in the absent header: they are parameters of the embedding.  A seed table is
read as `table level frame`. -/
structure Waveform where
  GxGDE060BA_FRAME_BEGIN_SIZE : Nat
  GxGDE060BA_FRAME_END_SIZE : Nat
  wave_begin_60 : Nat → Nat → Nat
  wave_end_60 : Nat → Nat → Nat

/-! ## State -/

/-- The two buffers of `FMSC_SRAM`. -/
inductive BufferId where
  | epd_sram_buffer1
  | epd_sram_buffer2
  deriving DecidableEq, Repr

/-- The call of the transport `GxIO_DESTM32L` that the driver makes.
`send_row row w` records the `w / 4` bytes of the row buffer handed over. -/
inductive Event where
  | powerOn
  | powerOff
  | start_scan
  | send_row (row : List Nat) (w : Nat)
  deriving DecidableEq, Repr

/-- The members of the display object that the modelled methods touch. -/
structure State where
  FMSC_SRAM : BufferId → Nat → Nat
  p_active_buffer : BufferId
  p_erase_buffer : BufferId
  rotation : Nat
  row_buffer : Nat → Nat
  wave_begin_table : Nat → Nat → Nat
  wave_end_table : Nat → Nat → Nat

/-- The constructor points the two pointers at the two different buffers, and
`swap` only ever exchanges them. -/
def State.Separate (s : State) : Prop := s.p_active_buffer ≠ s.p_erase_buffer

/-- Reads `(*p_active_buffer)[i]`. -/
def State.active (s : State) (i : Nat) : Nat := s.FMSC_SRAM s.p_active_buffer i

/-- Reads `(*p_erase_buffer)[i]`. -/
def State.erase (s : State) (i : Nat) : Nat := s.FMSC_SRAM s.p_erase_buffer i

/-- Executes `(*p_active_buffer)[i] = v`. -/
def State.setActive (s : State) (i v : Nat) : State :=
  { s with FMSC_SRAM := fun b j =>
      if b = s.p_active_buffer ∧ j = i then v else s.FMSC_SRAM b j }

/-- Modelled from the spec: `width()` of the base display class (not part of
the sources): 800 for the even rotations and 600 for the odd ones. -/
def width (s : State) : Int := if s.rotation % 2 = 0 then 800 else 600

/-- Modelled from the spec: `height()` of the base display class (not part of
the sources): 600 for the even rotations and 800 for the odd ones. -/
def height (s : State) : Int := if s.rotation % 2 = 0 then 600 else 800

/-! ## Pixel codec -/

/-- The expression
`((color & 0xF100) >> 11) + ((color & 0x07E0) >> 5) & (color & 0x001F)`,
stored in the `uint16_t brightness`; in C `+` binds tighter than `&`. -/
def brightness (color : Nat) : Nat :=
  ((((color &&& 0xF100) >>> 11) + ((color &&& 0x07E0) >>> 5)) &&& (color &&& 0x001F)) % 65536

/-- The coordinates after the `switch (getRotation())` of `drawPixel`. -/
def rotate (rotation : Nat) (x y : Int) : Int × Int :=
  match rotation with
  | 1 =>
    let (x, y) := (y, x)
    let x := (GxGDE060BA_WIDTH : Int) - x - 1
    (x, y)
  | 2 =>
    let x := (GxGDE060BA_WIDTH : Int) - x - 1
    let y := (GxGDE060BA_HEIGHT : Int) - y - 1
    (x, y)
  | 3 =>
    let (x, y) := (y, x)
    let y := (GxGDE060BA_HEIGHT : Int) - y - 1
    (x, y)
  | _ => (x, y)

/-- The statement `(*p_active_buffer)[i] = ((*p_active_buffer)[i] | (code << 2 * (3 - x % 4)))`. -/
def orField (s : State) (i : Nat) (code : Nat) (x : Int) : State :=
  s.setActive i (s.active i ||| (code <<< (2 * (3 - x % 4)).toNat))

/-- The method `drawPixel(int16_t x, int16_t y, uint16_t color)`. -/
def drawPixel (pal : Palette) (s : State) (x y : Int) (color : Nat) : State :=
  if x < 0 ∨ x ≥ width s ∨ y < 0 ∨ y ≥ height s then s
  else
    let (x, y) := rotate s.rotation x y
    let i : Nat := (x / 4 + y * (GxGDE060BA_WIDTH : Int) / 4).toNat
    let s := s.setActive i (s.active i &&& (0xFF ^^^ (3 <<< (2 * (3 - x % 4)).toNat)))
    if color = pal.GxEPD_BLACK then s
    else if color = pal.GxEPD_WHITE then orField s i 3 x
    else if color = pal.GxEPD_DARKGREY then orField s i 1 x
    else if color = pal.GxEPD_LIGHTGREY then orField s i 2 x
    else
      let brightness := brightness color
      if brightness < 3 * 128 / 2 then s
      else if brightness < 3 * 256 / 2 then orField s i 1 x
      else if brightness < 3 * 192 / 2 then orField s i 2 x
      else orField s i 3 x

/-- The method `fillScreen(uint16_t color)`: the byte pattern chosen for `color`. -/
def fillData (pal : Palette) (color : Nat) : Nat :=
  if color = pal.GxEPD_BLACK then 0x00
  else if color = pal.GxEPD_WHITE then 0xFF
  else if color = pal.GxEPD_DARKGREY then 0x55
  else if color = pal.GxEPD_LIGHTGREY then 0xAA
  else
    let brightness := brightness color
    if brightness < 3 * 128 / 2 then 0x00
    else if brightness < 3 * 256 / 2 then 0x55
    else if brightness < 3 * 192 / 2 then 0xAA
    else 0xFF

/-- The method `fillScreen(uint16_t color)`: `data` is chosen, then the loop
`for (x = 0; x < GxGDE060BA_BUFFER_SIZE; x++) (*p_active_buffer)[x] = data`. -/
def fillScreen (pal : Palette) (s : State) (color : Nat) : State :=
  let data := fillData pal color
  (List.range GxGDE060BA_BUFFER_SIZE).foldl (fun s x => s.setActive x data) s

/-- The 2-bit field of a byte at bit offset `shift`. -/
def field (byte shift : Nat) : Nat := (byte >>> shift) &&& 3

/-- The drive-level code that the colour tests of `drawPixel` select: the
field is cleared first and then `code << shift` is or-ed in (nothing for
black). -/
def levelCode (pal : Palette) (color : Nat) : Nat :=
  if color = pal.GxEPD_BLACK then 0
  else if color = pal.GxEPD_WHITE then 3
  else if color = pal.GxEPD_DARKGREY then 1
  else if color = pal.GxEPD_LIGHTGREY then 2
  else if brightness color < 3 * 128 / 2 then 0
  else if brightness color < 3 * 256 / 2 then 1
  else if brightness color < 3 * 192 / 2 then 2
  else 3

/-- The byte that `drawPixel` leaves behind: the field at `shift` cleared, then
`code << shift` or-ed in. -/
def putField (old shift code : Nat) : Nat :=
  (old &&& (0xFF ^^^ (3 <<< shift))) ||| (code <<< shift)

/-! ## The addressing as the specification words it -/

/-- The native coordinate of the logical pixel `(x, y)` under rotation `r`, as
the specification states it. -/
def native (r : Nat) (x y : Int) : Int × Int :=
  if r = 0 then (x, y)
  else if r = 1 then (799 - y, x)
  else if r = 2 then (799 - x, 599 - y)
  else (y, 599 - x)

/-- The byte of the native pixel `(nx, ny)`: `nx/4 + ny*200`. -/
def byteIndex (n : Int × Int) : Nat := (n.1 / 4 + n.2 * 200).toNat

/-- The bit offset of the native pixel `(nx, ny)` in its byte: `2*(3 - nx mod 4)`. -/
def bitOffset (n : Int × Int) : Nat := (2 * (3 - n.1 % 4)).toNat

/-- The named colour `c` and its code `k`: Black 0, DarkGrey 1, LightGrey 2, White 3. -/
def IsSentinel (pal : Palette) (c k : Nat) : Prop :=
  (c = pal.GxEPD_BLACK ∧ k = 0) ∨ (c = pal.GxEPD_DARKGREY ∧ k = 1) ∨
  (c = pal.GxEPD_LIGHTGREY ∧ k = 2) ∨ (c = pal.GxEPD_WHITE ∧ k = 3)

/-- The pixel `(x, y)` lies in the visible rectangle of the state. -/
def InBounds (s : State) (x y : Int) : Prop :=
  0 ≤ x ∧ x < width s ∧ 0 ≤ y ∧ y < height s

/-! ## Refresh driver -/

/-- The template function `swap(T& a, T& b)`: the pair of the new `a` and the
new `b`. -/
def swap {α : Type} (a b : α) : α × α :=
  let t := a
  let a := b
  let b := t
  (a, b)

/-- The loop `for (; (i < n) && (x < size); i++, x++) row_buffer[i] = table[bitmap[x]][frame];`
of `eraseBitmap` and `drawBitmap`, started at the counters `i` and `x`: the
counter `i` it stops at and the row buffer it leaves. -/
def lookupLoop (table : Nat → Nat → Nat) (bitmap : Nat → Nat) (size frame n : Nat)
    (i x : Nat) (row_buffer : Nat → Nat) : Nat × (Nat → Nat) :=
  if i < n ∧ x < size then
    lookupLoop table bitmap size frame n (i + 1) (x + 1)
      (Function.update row_buffer i (table (bitmap x) frame))
  else (i, row_buffer)
termination_by n - i
decreasing_by omega

/-- The loop `for (; (i < n); i++) row_buffer[i] = table[0xFF][frame];` that
follows it, started at the counter `i`. -/
def padLoop (table : Nat → Nat → Nat) (frame n : Nat) (i : Nat) (row_buffer : Nat → Nat) :
    Nat → Nat :=
  if i < n then padLoop table frame n (i + 1) (Function.update row_buffer i (table 0xFF frame))
  else row_buffer
termination_by n - i
decreasing_by omega

/-- The bytes that `IO.send_row(row_buffer, GxGDE060BA_WIDTH)` hands to the
transport: the `GxGDE060BA_WIDTH / 4` bytes of the row buffer. -/
def rowBytes (row_buffer : Nat → Nat) : List Nat :=
  (List.range (GxGDE060BA_WIDTH / 4)).map row_buffer

/-- The body of the `line` loop: the row buffer is filled by the two inner
loops and sent.  The accumulator is the row buffer and the events so far. -/
def scanLine (table : Nat → Nat → Nat) (bitmap : Nat → Nat) (size frame : Nat)
    (acc : (Nat → Nat) × List Event) (line : Nat) : (Nat → Nat) × List Event :=
  let n := GxGDE060BA_WIDTH / 4
  let x := line * n
  let (i, row_buffer) := lookupLoop table bitmap size frame n 0 x acc.1
  let row_buffer := padLoop table frame n i row_buffer
  (row_buffer, acc.2 ++ [Event.send_row (rowBytes row_buffer) GxGDE060BA_WIDTH])

/-- The body of the `frame` loop: `start_scan`, the `GxGDE060BA_HEIGHT` lines,
and one more `send_row` of the row buffer as it stands. -/
def scanFrame (table : Nat → Nat → Nat) (bitmap : Nat → Nat) (size : Nat)
    (acc : (Nat → Nat) × List Event) (frame : Nat) : (Nat → Nat) × List Event :=
  let acc := (acc.1, acc.2 ++ [Event.start_scan])
  let acc := (List.range GxGDE060BA_HEIGHT).foldl (scanLine table bitmap size frame) acc
  (acc.1, acc.2 ++ [Event.send_row (rowBytes acc.1) GxGDE060BA_WIDTH])

/-- The common text of `eraseBitmap` and `drawBitmap(const uint8_t*, uint32_t)`:
`powerOn`, the frames `0 .. frames - 1`, `powerOff`.  The two `delay(25)` are
no calls of the transport and leave no event.  The counters `frame`, `line`
and `i` are `uint16_t`; their bounds are the panel height, the row length and
the width of a seed table, which an `uint16_t` holds. -/
def scan (table : Nat → Nat → Nat) (frames : Nat) (bitmap : Nat → Nat) (size : Nat)
    (row_buffer : Nat → Nat) : (Nat → Nat) × List Event :=
  let acc := (row_buffer, [Event.powerOn])
  let acc := (List.range frames).foldl (scanFrame table bitmap size) acc
  (acc.1, acc.2 ++ [Event.powerOff])

/-- The method `eraseBitmap(const uint8_t *bitmap, uint32_t size)`: the loop
`for (frame = 0; frame < GxGDE060BA_FRAME_BEGIN_SIZE; frame++)` over
`wave_begin_table`. -/
def eraseBitmap (w : Waveform) (s : State) (bitmap : Nat → Nat) (size : Nat) :
    State × List Event :=
  let r := scan s.wave_begin_table w.GxGDE060BA_FRAME_BEGIN_SIZE bitmap size s.row_buffer
  ({ s with row_buffer := r.1 }, r.2)

/-- The method `drawBitmap(const uint8_t *bitmap, uint32_t size)`: the loop
`for (frame = 0; frame < GxGDE060BA_FRAME_END_SIZE - 2; frame++)` over
`wave_end_table`.  The bound is an `int`: below 2 the loop body never runs,
which is what the subtraction of natural numbers gives. -/
def drawBitmap (w : Waveform) (s : State) (bitmap : Nat → Nat) (size : Nat) :
    State × List Event :=
  let r := scan s.wave_end_table (w.GxGDE060BA_FRAME_END_SIZE - 2) bitmap size s.row_buffer
  ({ s with row_buffer := r.1 }, r.2)

/-- The method `update()`. -/
def update (w : Waveform) (s : State) : State × List Event :=
  let (s, t1) := eraseBitmap w s s.erase sizeof_epd_buffer_type
  let (s, t2) := drawBitmap w s s.active sizeof_epd_buffer_type
  let p := swap s.p_erase_buffer s.p_active_buffer
  ({ s with p_erase_buffer := p.1, p_active_buffer := p.2 }, t1 ++ t2)

/-- The null pointer that `eraseDisplay` passes as `bitmap`; with `size = 0`
the first inner loop never runs and it is never read. -/
def nullBitmap : Nat → Nat := fun _ => 0

/-- The method `eraseDisplay()`. -/
def eraseDisplay (pal : Palette) (w : Waveform) (s : State) : State × List Event :=
  let (s, t) := eraseBitmap w s nullBitmap 0
  (fillScreen pal s pal.GxEPD_WHITE, t)

/-! ## Waveform tables -/

/-- The body of the `num` loop of `init_wave_table`: the byte stored at
`[num][frame]`, computed from the seed table.  `tmp` and `value` are
`unsigned char`: every assignment is reduced modulo 256.  The two dead stores
`tmp = 0` and `value = 0` are left out. -/
def waveValue (seed : Nat → Nat → Nat) (num frame : Nat) : Nat :=
  let tmp := seed (num &&& 0x3) frame % 256
  let tmp := (tmp <<< 2) % 256
  let tmp := (tmp &&& 0xfffc) % 256
  let tmp := (tmp ||| seed ((num >>> 2) &&& 0x3) frame) % 256
  let tmp := (tmp <<< 2) % 256
  let tmp := (tmp &&& 0xfffc) % 256
  let tmp := (tmp ||| seed ((num >>> 4) &&& 0x3) frame) % 256
  let tmp := (tmp <<< 2) % 256
  let tmp := (tmp &&& 0xfffc) % 256
  let tmp := (tmp ||| seed ((num >>> 6) &&& 0x3) frame) % 256
  let value := ((tmp <<< 6) &&& 0xc0) % 256
  let value := (value + ((tmp <<< 2) &&& 0x30)) % 256
  let value := (value + ((tmp >>> 2) &&& 0x0c)) % 256
  let value := (value + ((tmp >>> 6) &&& 0x03)) % 256
  value

/-- The arithmetic of the body of the `num` loop on the four seed values read:
`a` for `num & 3`, `b` for `(num >> 2) & 3`, `c` for `(num >> 4) & 3` and `d`
for `(num >> 6) & 3`. -/
def mix (a b c d : Nat) : Nat :=
  let tmp := a % 256
  let tmp := (tmp <<< 2) % 256
  let tmp := (tmp &&& 0xfffc) % 256
  let tmp := (tmp ||| b) % 256
  let tmp := (tmp <<< 2) % 256
  let tmp := (tmp &&& 0xfffc) % 256
  let tmp := (tmp ||| c) % 256
  let tmp := (tmp <<< 2) % 256
  let tmp := (tmp &&& 0xfffc) % 256
  let tmp := (tmp ||| d) % 256
  let value := ((tmp <<< 6) &&& 0xc0) % 256
  let value := (value + ((tmp <<< 2) &&& 0x30)) % 256
  let value := (value + ((tmp >>> 2) &&& 0x0c)) % 256
  let value := (value + ((tmp >>> 6) &&& 0x03)) % 256
  value

/-- The assignment `table[num][frame] = value`. -/
def setEntry (table : Nat → Nat → Nat) (num frame value : Nat) : Nat → Nat → Nat :=
  fun n f => if n = num ∧ f = frame then value else table n f

/-- One of the two loop nests of `init_wave_table`:
`for (frame = 0; frame < frames; frame++) for (num = 0; num < WAVE_TABLE_SIZE; num++)`. -/
def expand (seed : Nat → Nat → Nat) (frames : Nat) (table : Nat → Nat → Nat) :
    Nat → Nat → Nat :=
  (List.range frames).foldl (fun table frame =>
    (List.range WAVE_TABLE_SIZE).foldl (fun table num =>
      setEntry table num frame (waveValue seed num frame)) table) table

/-- The method `init_wave_table()`. -/
def init_wave_table (w : Waveform) (s : State) : State :=
  let wave_begin_table :=
    expand w.wave_begin_60 w.GxGDE060BA_FRAME_BEGIN_SIZE s.wave_begin_table
  let wave_end_table :=
    expand w.wave_end_60 w.GxGDE060BA_FRAME_END_SIZE s.wave_end_table
  { s with wave_begin_table := wave_begin_table, wave_end_table := wave_end_table }

/-! ## The expanded table as the specification words it -/

/-- The table entry of the specification: each 2-bit field of `b` mapped
through the seed table at frame `f` and put back into its own slot,
`sum over k in 0..3 of seed[(b >> 2k) & 3][f] << 2k`. -/
def fieldwise (seed : Nat → Nat → Nat) (b f : Nat) : Nat :=
  ∑ k ∈ Finset.range 4, seed ((b >>> (2 * k)) &&& 3) f <<< (2 * k)

/-- Every entry of the seed table for the levels 0..3 and the frames below
`frames` is a 2-bit code. -/
def TwoBit (seed : Nat → Nat → Nat) (frames : Nat) : Prop :=
  ∀ level, level < 4 → ∀ f, f < frames → seed level f < 4

/-- Field `j` of an entry depends only on field `j` of the byte value and on
the frame. -/
def FieldLocal (table : Nat → Nat → Nat) (frames : Nat) : Prop :=
  ∀ f, f < frames → ∀ b, b < 256 → ∀ b1, b1 < 256 → ∀ j, j < 4 →
    field b (2 * j) = field b1 (2 * j) → field (table b f) (2 * j) = field (table b1 f) (2 * j)

/-- Two byte values that agree outside field `k` have entries that agree
outside field `k`. -/
def PerturbationLocal (table : Nat → Nat → Nat) (frames : Nat) : Prop :=
  ∀ f, f < frames → ∀ b, b < 256 → ∀ b1, b1 < 256 → ∀ k, k < 4 →
    (∀ j, j < 4 → j ≠ k → field b (2 * j) = field b1 (2 * j)) →
    ∀ j, j < 4 → j ≠ k → field (table b f) (2 * j) = field (table b1 f) (2 * j)

/-! ## The transport trace as the specification words it -/

/-- The 200 bytes of line `line` of frame `frame`: byte `i` is the table entry
of source byte `200*line + i`, no padding. -/
def plainRow (table : Nat → Nat → Nat) (src : Nat → Nat) (frame line : Nat) : List Nat :=
  (List.range 200).map (fun i => table (src (200 * line + i)) frame)

/-- The 200 bytes of line `line` of frame `frame` of a source of `size` bytes:
the bytes beyond the size are the entry of `0xFF`. -/
def paddedRow (table : Nat → Nat → Nat) (src : Nat → Nat) (size frame line : Nat) :
    List Nat :=
  (List.range 200).map (fun i =>
    if 200 * line + i < size then table (src (200 * line + i)) frame else table 0xFF frame)

/-- The events of one frame: `start_scan`, the 600 line rows, and the row of
line 599 once more. -/
def frameTrace (rowOf : Nat → Nat → List Nat) (frame : Nat) : List Event :=
  Event.start_scan ::
    ((List.range 600).map (fun line => Event.send_row (rowOf frame line) 800) ++
      [Event.send_row (rowOf frame 599) 800])

/-- The events of one pass of `frames` frames between `powerOn` and `powerOff`. -/
def passTrace (rowOf : Nat → Nat → List Nat) (frames : Nat) : List Event :=
  Event.powerOn :: ((List.range frames).flatMap (frameTrace rowOf) ++ [Event.powerOff])

/-- The number of `start_scan` calls in a trace. -/
def startScans (t : List Event) : Nat := t.count Event.start_scan

/-! ## Sample inputs -/

/-- A palette of four different colour values: the RGB565 values of black,
grey 128, grey 192 and white. -/
def samplePalette : Palette :=
  { GxEPD_BLACK := 0x0000, GxEPD_DARKGREY := 0x7BEF, GxEPD_LIGHTGREY := 0xC618,
    GxEPD_WHITE := 0xFFFF }

/-- A state as the constructor leaves it, with all-white buffers, at
rotation `r`. -/
def sampleState (r : Nat) : State :=
  { FMSC_SRAM := fun _ _ => 0xFF
    p_active_buffer := BufferId.epd_sram_buffer1
    p_erase_buffer := BufferId.epd_sram_buffer2
    rotation := r
    row_buffer := fun _ => 0
    wave_begin_table := fun _ _ => 0
    wave_end_table := fun _ _ => 0 }

/-- A waveform with one erase frame and a draw seed table of width 3, whose
2-bit seeds do not depend on the frame. -/
def sampleWaveform : Waveform :=
  { GxGDE060BA_FRAME_BEGIN_SIZE := 1
    GxGDE060BA_FRAME_END_SIZE := 3
    wave_begin_60 := fun level _ => (level + 2) % 4
    wave_end_60 := fun level _ => 3 - level % 4 }

/-! ## Classification and reading of pixels -/

/-- The `if`/`else if` chain on `brightness` that `drawPixel` and `fillScreen`
share, as the code it selects: nothing or-ed in or `0x00` is 0, `1 <<` or
`0x55` is 1, `2 <<` or `0xAA` is 2, `3 <<` or `0xFF` is 3. -/
def thresholdCode (brightness : Nat) : Nat :=
  if brightness < 3 * 128 / 2 then 0
  else if brightness < 3 * 256 / 2 then 1
  else if brightness < 3 * 192 / 2 then 2
  else 3

/-- The colour value is none of the four named grey levels. -/
def NonSentinel (pal : Palette) (color : Nat) : Prop :=
  color ≠ pal.GxEPD_BLACK ∧ color ≠ pal.GxEPD_WHITE ∧ color ≠ pal.GxEPD_DARKGREY ∧
  color ≠ pal.GxEPD_LIGHTGREY

/-- The inverse of the codec, as the specification uses it: the code in the
2-bit field of the active buffer that the pixel `(x, y)` addresses. -/
def readPixel (s : State) (x y : Int) : Nat :=
  field (s.active (byteIndex (native s.rotation x y))) (bitOffset (native s.rotation x y))

/-- The byte index `i` and the shift `2 * (3 - x % 4)` that `drawPixel`
computes after the rotation switch. -/
def address (rotation : Nat) (x y : Int) : Nat × Nat :=
  let (x, y) := rotate rotation x y
  let i : Nat := (x / 4 + y * (GxGDE060BA_WIDTH : Int) / 4).toNat
  (i, (2 * (3 - x % 4)).toNat)

/-! ## Counting the calls of the transport -/

/-- The number of `powerOn` calls in a trace. -/
def powerOns (t : List Event) : Nat := t.count Event.powerOn

/-- The number of `powerOff` calls in a trace. -/
def powerOffs (t : List Event) : Nat := t.count Event.powerOff

/-- The event is a `send_row` call. -/
def isSendRow : Event → Bool
  | Event.send_row _ _ => true
  | _ => false

/-- The number of `send_row` calls in a trace. -/
def sendRows (t : List Event) : Nat := t.countP isSendRow

/-- The frames of one pass in order, without the two power calls around them. -/
def framesTrace (rowOf : Nat → Nat → List Nat) (frames : Nat) : List Event :=
  (List.range frames).flatMap (frameTrace rowOf)

/-! ## The seed of the end-to-end scenario -/

/-- The example seed of the specification at frame 0: level 0 gives `0xC`,
1 gives `0x4`, 2 gives `0x8` and 3 gives `0x0`. -/
def exampleSeed : Nat → Nat → Nat := fun level _ =>
  match level with
  | 0 => 0xC
  | 1 => 0x4
  | 2 => 0x8
  | _ => 0x0

/-- The 2-bit codes of the example seed, each value shifted right by two:
level 0 gives 3, 1 gives 1, 2 gives 2 and 3 gives 0. -/
def exampleSeed2 : Nat → Nat → Nat := fun level _ =>
  match level with
  | 0 => 3
  | 1 => 1
  | 2 => 2
  | _ => 0

/-- A waveform of one erase frame with the example seed. -/
def exampleWaveform : Waveform :=
  { GxGDE060BA_FRAME_BEGIN_SIZE := 1
    GxGDE060BA_FRAME_END_SIZE := 3
    wave_begin_60 := exampleSeed
    wave_end_60 := exampleSeed2 }

/-- A waveform of one erase frame with the 2-bit codes of the example seed. -/
def exampleWaveform2 : Waveform :=
  { GxGDE060BA_FRAME_BEGIN_SIZE := 1
    GxGDE060BA_FRAME_END_SIZE := 3
    wave_begin_60 := exampleSeed2
    wave_end_60 := exampleSeed2 }

/-! ## Drawing a bitmap -/

/-- The value of an `int` stored in an `uint16_t`. -/
def toUint16 (v : Int) : Nat := (v % 65536).toNat

/-- The value of an `uint16_t` passed as an `int16_t` argument. -/
def toInt16 (v : Nat) : Int :=
  if v % 65536 < 32768 then ((v % 65536 : Nat) : Int) else ((v % 65536 : Nat) : Int) - 65536

/-- The two statements of the loop body of `drawBitmap(x, y, bitmap, w, h, color)`
before the call of `drawPixel`: the index `i = x1 / 8 + y1 * w / 8`, an
`uint16_t`, and `pixelcolor = (bitmap[i] & (0x80 >> x1 % 8)) ? GxEPD_WHITE : color`.
The body runs only when `w` is positive, so no operand of a division is
negative. -/
def pixelcolor (pal : Palette) (bitmap : Nat → Nat) (w : Int) (color : Nat) (x1 y1 : Nat) :
    Nat :=
  let i := toUint16 ((x1 : Int) / 8 + (y1 : Int) * w / 8)
  if bitmap i &&& (0x80 >>> (x1 % 8)) ≠ 0 then pal.GxEPD_WHITE else color

/-- The method `drawBitmap(int16_t x, int16_t y, const uint8_t *bitmap, int16_t w,
int16_t h, uint16_t color)`.  The counter `x1` is an `uint16_t` that starts at
`x` stored in an `uint16_t` and runs while `x1 < x + w`, compared as `int`; as
`x + w` is below 65535 for `int16_t` values the counter does not wrap, and the
loop makes `x + w - x1` rounds when that is positive and none otherwise.  The
same holds for `y1`.  `drawPixel` takes the counters as `int16_t`. -/
def drawBitmapAt (pal : Palette) (s : State) (x y : Int) (bitmap : Nat → Nat) (w h : Int)
    (color : Nat) : State :=
  (List.range (x + w - (toUint16 x : Int)).toNat).foldl (fun s kx =>
    let x1 := toUint16 x + kx
    (List.range (y + h - (toUint16 y : Int)).toNat).foldl (fun s ky =>
      let y1 := toUint16 y + ky
      drawPixel pal s (toInt16 x1) (toInt16 y1) (pixelcolor pal bitmap w color x1 y1)) s) s

/-- A sequence of `drawPixel` calls, each given by its pixel and its colour. -/
def drawOps (pal : Palette) (s : State) (ops : List ((Int × Int) × Nat)) : State :=
  ops.foldl (fun t op => drawPixel pal t op.1.1 op.1.2 op.2) s

/-- The pixels of the visible rectangle, column by column. -/
def allPixels (s : State) : List (Int × Int) :=
  (List.range (width s).toNat).flatMap (fun (x : Nat) =>
    (List.range (height s).toNat).map (fun (y : Nat) => ((x : Int), (y : Int))))

/-- A bitmap without a set bit. -/
def clearBitmap : Nat → Nat := fun _ => 0

/-- A bitmap whose first byte is `0xFF` and whose other bytes are 0. -/
def firstByteSet : Nat → Nat := fun i => if i = 0 then 0xFF else 0

/-- A bitmap whose byte 65623 is `0xFF` and whose other bytes are 0. -/
def farByteSet : Nat → Nat := fun i => if i = 65623 then 0xFF else 0

/-- The byte index and the shift of the field that the pixel `p` addresses. -/
def cell (s : State) (p : Int × Int) : Nat × Nat :=
  (byteIndex (native s.rotation p.1 p.2), bitOffset (native s.rotation p.1 p.2))

/-- What a sequence `ops` of `drawPixel` calls has made of the state `s`: the
state `t` has the pointers and the rotation of `s`; a byte that no call
addresses is as in `s`; a byte that a call addresses is below 256; a field
that calls of one code `k` address holds `k`; a field that no call addresses
is as in `s`. -/
structure DrawInv (pal : Palette) (s t : State) (ops : List ((Int × Int) × Nat)) : Prop where
  rot : t.rotation = s.rotation
  act : t.p_active_buffer = s.p_active_buffer
  ers : t.p_erase_buffer = s.p_erase_buffer
  other : ∀ b j, (b ≠ s.p_active_buffer ∨
      ∀ op ∈ ops, InBounds s op.1.1 op.1.2 → (cell s op.1).1 ≠ j) →
    t.FMSC_SRAM b j = s.FMSC_SRAM b j
  byte : ∀ op ∈ ops, InBounds s op.1.1 op.1.2 → t.active (cell s op.1).1 < 256
  drawn : ∀ j sh k, (∃ op ∈ ops, InBounds s op.1.1 op.1.2 ∧ cell s op.1 = (j, sh)) →
    (∀ op ∈ ops, InBounds s op.1.1 op.1.2 → cell s op.1 = (j, sh) → levelCode pal op.2 = k) →
    field (t.active j) sh = k
  kept : ∀ j sh, (sh = 0 ∨ sh = 2 ∨ sh = 4 ∨ sh = 6) →
    (∀ op ∈ ops, InBounds s op.1.1 op.1.2 → cell s op.1 ≠ (j, sh)) →
    field (t.active j) sh = field (s.active j) sh

/-- The `drawPixel` calls of `drawBitmap(x, y, bitmap, w, h, color)` in the
order of the two loops: the pixel as `drawPixel` receives it, and its colour. -/
def bitmapOps (pal : Palette) (x y : Int) (bitmap : Nat → Nat) (w h : Int) (color : Nat) :
    List ((Int × Int) × Nat) :=
  (List.range (x + w - (toUint16 x : Int)).toNat).flatMap (fun kx =>
    (List.range (y + h - (toUint16 y : Int)).toNat).map (fun ky =>
      ((toInt16 (toUint16 x + kx), toInt16 (toUint16 y + ky)),
        pixelcolor pal bitmap w color (toUint16 x + kx) (toUint16 y + ky))))

/-! ## Lemmas on bytes -/

theorem and_byte (old m : Nat) (hm : m < 256) : old &&& m = (old % 256) &&& m := by
  have h1 : m = 255 &&& m := by
    have h2 := Nat.and_pow_two_sub_one_eq_mod m 8
    simp at h2
    rw [Nat.and_comm, h2, Nat.mod_eq_of_lt hm]
  have h3 := Nat.and_pow_two_sub_one_eq_mod old 8
  simp at h3
  rw [← h3, Nat.and_assoc, ← h1]

theorem field_mod (old sh : Nat) (hsh : sh = 0 ∨ sh = 2 ∨ sh = 4 ∨ sh = 6) :
    field old sh = field (old % 256) sh := by
  have h3 : ∀ n : Nat, n &&& 3 = n % 4 := fun n => by
    simpa using Nat.and_pow_two_sub_one_eq_mod n 2
  unfold field
  rw [h3, h3, Nat.shiftRight_eq_div_pow, Nat.shiftRight_eq_div_pow]
  rcases hsh with h | h | h | h <;> subst h <;> simp <;> omega

theorem putField_mod (old sh code : Nat) (hsh : sh = 0 ∨ sh = 2 ∨ sh = 4 ∨ sh = 6) :
    putField old sh code = putField (old % 256) sh code := by
  unfold putField
  rw [and_byte old]
  rcases hsh with h | h | h | h <;> subst h <;> decide

set_option maxRecDepth 100000 in
theorem putField_same_aux : ∀ old < 256, ∀ k < 4, ∀ c < 4,
    field (putField old (2 * (3 - k)) c) (2 * (3 - k)) = c := by
  decide

set_option maxRecDepth 100000 in
theorem putField_other_aux : ∀ old < 256, ∀ k < 4, ∀ j < 4, ∀ c < 4, j ≠ k →
    field (putField old (2 * (3 - k)) c) (2 * (3 - j)) = field old (2 * (3 - j)) := by
  decide

theorem shift_cases (sh : Nat) (hsh : sh = 0 ∨ sh = 2 ∨ sh = 4 ∨ sh = 6) :
    ∃ k, k < 4 ∧ sh = 2 * (3 - k) := by
  rcases hsh with h | h | h | h
  · exact ⟨3, by omega, by omega⟩
  · exact ⟨2, by omega, by omega⟩
  · exact ⟨1, by omega, by omega⟩
  · exact ⟨0, by omega, by omega⟩

/-- The written field holds the code, whatever the byte held before. -/
theorem field_putField_same (old sh c : Nat) (hsh : sh = 0 ∨ sh = 2 ∨ sh = 4 ∨ sh = 6)
    (hc : c < 4) : field (putField old sh c) sh = c := by
  obtain ⟨k, hk, rfl⟩ := shift_cases sh hsh
  rw [putField_mod old _ c hsh]
  exact putField_same_aux (old % 256) (Nat.mod_lt _ (by decide)) k hk c hc

/-- The other three fields of the byte keep their value. -/
theorem field_putField_other (old sh sh1 c : Nat) (hsh : sh = 0 ∨ sh = 2 ∨ sh = 4 ∨ sh = 6)
    (hsh1 : sh1 = 0 ∨ sh1 = 2 ∨ sh1 = 4 ∨ sh1 = 6) (hne : sh1 ≠ sh) (hc : c < 4) :
    field (putField old sh c) sh1 = field old sh1 := by
  obtain ⟨k, hk, rfl⟩ := shift_cases sh hsh
  obtain ⟨j, hj, rfl⟩ := shift_cases sh1 hsh1
  rw [putField_mod old _ c hsh, field_mod old _ hsh1]
  exact putField_other_aux (old % 256) (Nat.mod_lt _ (by decide)) k hk j hj c hc
    (fun h => hne (by rw [h]))

theorem levelCode_lt (pal : Palette) (color : Nat) : levelCode pal color < 4 := by
  unfold levelCode
  split_ifs <;> decide


/-! ## Lemmas on the state -/

theorem setActive_active (s : State) (i v : Nat) : (s.setActive i v).active i = v := by
  simp [State.setActive, State.active]

theorem setActive_setActive (s : State) (i a b : Nat) :
    (s.setActive i a).setActive i b = s.setActive i b := by
  unfold State.setActive
  simp only [State.mk.injEq, and_true, true_and]
  funext c j
  by_cases h : c = s.p_active_buffer ∧ j = i <;> simp [h]

theorem orField_setActive (s : State) (i a code : Nat) (x : Int) :
    orField (s.setActive i a) i code x =
      s.setActive i (a ||| (code <<< (2 * (3 - x % 4)).toNat)) := by
  unfold orField
  rw [setActive_active, setActive_setActive]

theorem putField_zero (old sh : Nat) :
    putField old sh 0 = old &&& (0xFF ^^^ (3 <<< sh)) := by
  simp [putField]

/-- The switch of `drawPixel` computes the native coordinate of the specification. -/
theorem rotate_eq_native (r : Nat) (hr : r < 4) (x y : Int) : rotate r x y = native r x y := by
  have h : r = 0 ∨ r = 1 ∨ r = 2 ∨ r = 3 := by omega
  rcases h with h | h | h | h <;> subst h <;> simp [rotate, native] <;> omega

/-- The native coordinate of a visible pixel lies on the 800 x 600 panel. -/
theorem native_range (s : State) (hr : s.rotation < 4) (x y : Int) (hb : InBounds s x y) :
    0 ≤ (native s.rotation x y).1 ∧ (native s.rotation x y).1 < 800 ∧
    0 ≤ (native s.rotation x y).2 ∧ (native s.rotation x y).2 < 600 := by
  obtain ⟨h0, h1, h2, h3⟩ := hb
  unfold width at h1
  unfold height at h3
  have h : s.rotation = 0 ∨ s.rotation = 1 ∨ s.rotation = 2 ∨ s.rotation = 3 := by omega
  rcases h with h | h | h | h <;> rw [h] at h1 h3 ⊢ <;> simp [native] at h1 h3 ⊢ <;> omega

theorem bitOffset_cases (n : Int × Int) :
    bitOffset n = 0 ∨ bitOffset n = 2 ∨ bitOffset n = 4 ∨ bitOffset n = 6 := by
  unfold bitOffset
  omega

theorem byteIndex_lt (n : Int × Int) (h1 : 0 ≤ n.1) (h2 : n.1 < 800) (h3 : 0 ≤ n.2)
    (h4 : n.2 < 600) : byteIndex n < GxGDE060BA_BUFFER_SIZE := by
  have hs : GxGDE060BA_BUFFER_SIZE = 120000 := by decide
  rw [hs]
  unfold byteIndex
  omega

/-- What an in-bounds `drawPixel` does: one store of the byte with the
addressed field replaced by the code of the colour. -/
theorem drawPixel_inBounds (pal : Palette) (s : State) (hr : s.rotation < 4) (x y : Int)
    (hb : InBounds s x y) (color : Nat) :
    drawPixel pal s x y color =
      s.setActive (byteIndex (native s.rotation x y))
        (putField (s.active (byteIndex (native s.rotation x y)))
          (bitOffset (native s.rotation x y)) (levelCode pal color)) := by
  obtain ⟨h0, h1, h2, h3⟩ := hb
  have hn : ¬ (x < 0 ∨ x ≥ width s ∨ y < 0 ∨ y ≥ height s) := by omega
  unfold drawPixel
  rw [if_neg hn, rotate_eq_native _ hr]
  have hi : ((native s.rotation x y).1 / 4 +
      (native s.rotation x y).2 * (GxGDE060BA_WIDTH : Int) / 4).toNat =
      byteIndex (native s.rotation x y) := by
    unfold byteIndex
    congr 1
    simp only [GxGDE060BA_WIDTH]
    omega
  simp only [hi, orField_setActive]
  unfold levelCode putField bitOffset
  split_ifs <;> simp

theorem levelCode_sentinel (pal : Palette) (hpal : pal.Distinct) (c k : Nat)
    (hc : IsSentinel pal c k) : levelCode pal c = k := by
  obtain ⟨h1, h2, h3, h4, h5, h6⟩ := hpal
  unfold levelCode
  rcases hc with ⟨rfl, rfl⟩ | ⟨rfl, rfl⟩ | ⟨rfl, rfl⟩ | ⟨rfl, rfl⟩
  · simp
  · simp [Ne.symm h2, Ne.symm h4]
  · simp [Ne.symm h3, Ne.symm h5, Ne.symm h6]
  · simp [Ne.symm h1]

theorem setActive_active_ne (s : State) (i j v : Nat) (h : j ≠ i) :
    (s.setActive i v).active j = s.active j := by
  simp [State.setActive, State.active, h]

theorem setActive_erase (s : State) (hsep : s.Separate) (i j v : Nat) :
    (s.setActive i v).erase j = s.erase j := by
  have h : s.p_erase_buffer ≠ s.p_active_buffer := fun h => hsep h.symm
  simp [State.setActive, State.erase, h]

/-! ## The pixel codec -/

/-- C1: for every rotation 0..3, every pixel of the visible rectangle and every
named grey level `c` with code `k`, after `drawPixel(x, y, c)` the 2-bit field
at bit offset `2*(3 - nx mod 4)` of active-buffer byte `nx/4 + ny*200` holds
`k`, where `(nx, ny)` is the native coordinate; the native pixels
`4j .. 4j+3` of a row lie in one byte at the offsets 6, 4, 2, 0. -/
theorem drawPixel_sentinel_field (pal : Palette) (hpal : pal.Distinct) (s : State)
    (hr : s.rotation < 4) (x y : Int) (hb : InBounds s x y) (c k : Nat)
    (hc : IsSentinel pal c k) :
    field ((drawPixel pal s x y c).active (byteIndex (native s.rotation x y)))
        (bitOffset (native s.rotation x y)) = k ∧
    ∀ j m ny : Nat, m < 4 →
      byteIndex ((4 * j + m : Nat), (ny : Nat)) = j + ny * 200 ∧
      bitOffset ((4 * j + m : Nat), (ny : Nat)) = 6 - 2 * m := by
  constructor
  · rw [drawPixel_inBounds pal s hr x y hb, setActive_active,
      levelCode_sentinel pal hpal c k hc]
    have hk : k < 4 := by
      rcases hc with ⟨_, rfl⟩ | ⟨_, rfl⟩ | ⟨_, rfl⟩ | ⟨_, rfl⟩ <;> decide
    exact field_putField_same _ _ _ (bitOffset_cases _) hk
  · intro j m ny hm
    unfold byteIndex bitOffset
    constructor <;> simp only <;> omega

/-- Witness of C1: light grey drawn at (5, 7) under rotation 1. -/
theorem drawPixel_sentinel_field_witness :
    samplePalette.Distinct ∧ (sampleState 1).rotation < 4 ∧ InBounds (sampleState 1) 5 7 ∧
    IsSentinel samplePalette 0xC618 2 ∧
    field ((drawPixel samplePalette (sampleState 1) 5 7 0xC618).active
        (byteIndex (native (sampleState 1).rotation 5 7)))
      (bitOffset (native (sampleState 1).rotation 5 7)) = 2 :=
  have h1 : samplePalette.Distinct := by simp [Palette.Distinct, samplePalette]
  have h2 : (sampleState 1).rotation < 4 := by decide
  have h3 : InBounds (sampleState 1) 5 7 := by
    simp [InBounds, width, height, sampleState]
  have h4 : IsSentinel samplePalette 0xC618 2 := by simp [IsSentinel, samplePalette]
  ⟨h1, h2, h3, h4, (drawPixel_sentinel_field samplePalette h1 (sampleState 1) h2 5 7 h3 _ _ h4).1⟩

/-- C2: for every rotation and colour, `drawPixel` at a coordinate outside the
visible rectangle leaves the two buffers byte for byte as they were and does
not change which buffer is active. -/
theorem drawPixel_outside (pal : Palette) (s : State) (x y : Int) (color : Nat)
    (h : x < 0 ∨ x ≥ width s ∨ y < 0 ∨ y ≥ height s) :
    (∀ i, (drawPixel pal s x y color).active i = s.active i) ∧
    (∀ i, (drawPixel pal s x y color).erase i = s.erase i) ∧
    (drawPixel pal s x y color).FMSC_SRAM = s.FMSC_SRAM ∧
    (drawPixel pal s x y color).p_active_buffer = s.p_active_buffer ∧
    (drawPixel pal s x y color).p_erase_buffer = s.p_erase_buffer := by
  have hs : drawPixel pal s x y color = s := by
    unfold drawPixel
    rw [if_pos h]
  rw [hs]
  exact ⟨fun _ => rfl, fun _ => rfl, rfl, rfl, rfl⟩

/-- Witness of C2: the pixel (600, 0) is outside the 600 x 800 rectangle of
rotation 1. -/
theorem drawPixel_outside_witness :
    ((600 : Int) < 0 ∨ (600 : Int) ≥ width (sampleState 1) ∨ (0 : Int) < 0 ∨
      (0 : Int) ≥ height (sampleState 1)) ∧
    (drawPixel samplePalette (sampleState 1) 600 0 0).FMSC_SRAM = (sampleState 1).FMSC_SRAM :=
  have h : (600 : Int) < 0 ∨ (600 : Int) ≥ width (sampleState 1) ∨ (0 : Int) < 0 ∨
      (0 : Int) ≥ height (sampleState 1) := by
    simp [width, sampleState]
  ⟨h, (drawPixel_outside samplePalette (sampleState 1) 600 0 0 h).2.2.1⟩

/-- C3: an in-bounds `drawPixel`, for any rotation 0..3 and any colour value,
stores into one byte inside the active buffer; every other byte of the active
buffer, the other three 2-bit fields of that byte, the whole reference buffer
and every other member of the state keep their value. -/
theorem drawPixel_frame (pal : Palette) (s : State) (hr : s.rotation < 4)
    (hsep : s.Separate) (x y : Int) (hb : InBounds s x y) (color : Nat) :
    byteIndex (native s.rotation x y) < GxGDE060BA_BUFFER_SIZE ∧
    (∀ j, j ≠ byteIndex (native s.rotation x y) →
      (drawPixel pal s x y color).active j = s.active j) ∧
    (∀ sh, (sh = 0 ∨ sh = 2 ∨ sh = 4 ∨ sh = 6) → sh ≠ bitOffset (native s.rotation x y) →
      field ((drawPixel pal s x y color).active (byteIndex (native s.rotation x y))) sh =
        field (s.active (byteIndex (native s.rotation x y))) sh) ∧
    (∀ j, (drawPixel pal s x y color).erase j = s.erase j) ∧
    (drawPixel pal s x y color).p_active_buffer = s.p_active_buffer ∧
    (drawPixel pal s x y color).p_erase_buffer = s.p_erase_buffer ∧
    (drawPixel pal s x y color).rotation = s.rotation ∧
    (drawPixel pal s x y color).row_buffer = s.row_buffer ∧
    (drawPixel pal s x y color).wave_begin_table = s.wave_begin_table ∧
    (drawPixel pal s x y color).wave_end_table = s.wave_end_table := by
  obtain ⟨n1, n2, n3, n4⟩ := native_range s hr x y hb
  rw [drawPixel_inBounds pal s hr x y hb]
  refine ⟨byteIndex_lt _ n1 n2 n3 n4, ?_, ?_, ?_, rfl, rfl, rfl, rfl, rfl, rfl⟩
  · intro j hj
    exact setActive_active_ne s _ j _ hj
  · intro sh hsh hne
    rw [setActive_active]
    exact field_putField_other _ _ _ _ (bitOffset_cases _) hsh hne (levelCode_lt pal color)
  · intro j
    exact setActive_erase s hsep _ j _

/-- Witness of C3: a colour that is no named grey level, drawn at (5, 7) under
rotation 1. -/
theorem drawPixel_frame_witness :
    (sampleState 1).rotation < 4 ∧ (sampleState 1).Separate ∧ InBounds (sampleState 1) 5 7 ∧
    ∀ j, (drawPixel samplePalette (sampleState 1) 5 7 0x1234).erase j = (sampleState 1).erase j :=
  have h2 : (sampleState 1).rotation < 4 := by decide
  have h3 : InBounds (sampleState 1) 5 7 := by
    simp [InBounds, width, height, sampleState]
  have h4 : (sampleState 1).Separate := by simp [State.Separate, sampleState]
  ⟨h2, h4, h3, (drawPixel_frame samplePalette (sampleState 1) h2 h4 5 7 h3 0x1234).2.2.2.1⟩

/-- The store loop of `fillScreen` run for `n` rounds: the first `n` bytes of
the active buffer hold `data`, everything else is as before. -/
theorem fill_loop (s : State) (data n : Nat) :
    (List.range n).foldl (fun s x => s.setActive x data) s =
      { s with FMSC_SRAM := fun b j =>
          if b = s.p_active_buffer ∧ j < n then data else s.FMSC_SRAM b j } := by
  induction n with
  | zero => simp
  | succ n ih =>
    rw [List.range_succ, List.foldl_append, ih]
    simp only [List.foldl_cons, List.foldl_nil, State.setActive, State.mk.injEq, and_true,
      true_and]
    funext b j
    by_cases hb : b = s.p_active_buffer
    · by_cases hj : j = n
      · simp [hb, hj]
      · by_cases hlt : j < n
        · have : j < n + 1 := by omega
          simp [hb, hj, hlt, this]
        · have : ¬ j < n + 1 := by omega
          simp [hb, hj, hlt, this]
    · simp [hb]

theorem fillScreen_eq (pal : Palette) (s : State) (color : Nat) :
    fillScreen pal s color =
      { s with FMSC_SRAM := fun b j =>
          if b = s.p_active_buffer ∧ j < GxGDE060BA_BUFFER_SIZE then fillData pal color
          else s.FMSC_SRAM b j } := by
  unfold fillScreen
  exact fill_loop s _ _

theorem fillData_sentinel (pal : Palette) (hpal : pal.Distinct) (c k : Nat)
    (hc : IsSentinel pal c k) : fillData pal c = k * 0x55 := by
  obtain ⟨h1, h2, h3, h4, h5, h6⟩ := hpal
  unfold fillData
  rcases hc with ⟨rfl, rfl⟩ | ⟨rfl, rfl⟩ | ⟨rfl, rfl⟩ | ⟨rfl, rfl⟩
  · simp
  · simp [Ne.symm h2, Ne.symm h4]
  · simp [Ne.symm h3, Ne.symm h5, Ne.symm h6]
  · simp [Ne.symm h1]

theorem field_replicated : ∀ k < 4, ∀ j < 4, field (k * 0x55) (2 * (3 - j)) = k := by
  decide

/-- C4: for a named grey level `c` with code `k` and any prior contents, after
`fillScreen(c)` every byte of the active buffer is `k*0x55`, each of its four
2-bit fields is `k`, and the reference buffer is unchanged. -/
theorem fillScreen_sentinel (pal : Palette) (hpal : pal.Distinct) (s : State)
    (hsep : s.Separate) (c k : Nat) (hc : IsSentinel pal c k) :
    (∀ i, i < GxGDE060BA_BUFFER_SIZE → (fillScreen pal s c).active i = k * 0x55) ∧
    (∀ i, i < GxGDE060BA_BUFFER_SIZE → ∀ sh, (sh = 0 ∨ sh = 2 ∨ sh = 4 ∨ sh = 6) →
      field ((fillScreen pal s c).active i) sh = k) ∧
    (∀ j, (fillScreen pal s c).erase j = s.erase j) ∧
    (fillScreen pal s c).p_active_buffer = s.p_active_buffer ∧
    (fillScreen pal s c).p_erase_buffer = s.p_erase_buffer := by
  have hk : k < 4 := by
    rcases hc with ⟨_, rfl⟩ | ⟨_, rfl⟩ | ⟨_, rfl⟩ | ⟨_, rfl⟩ <;> decide
  have hbyte : ∀ i, i < GxGDE060BA_BUFFER_SIZE → (fillScreen pal s c).active i = k * 0x55 := by
    intro i hi
    rw [fillScreen_eq, ← fillData_sentinel pal hpal c k hc]
    simp [State.active, hi]
  refine ⟨hbyte, ?_, ?_, ?_, ?_⟩
  · intro i hi sh hsh
    rw [hbyte i hi]
    obtain ⟨j, hj, rfl⟩ := shift_cases sh hsh
    exact field_replicated k hk j hj
  · intro j
    have h : s.p_erase_buffer ≠ s.p_active_buffer := fun h => hsep h.symm
    rw [fillScreen_eq]
    simp [State.erase, h]
  · rw [fillScreen_eq]
  · rw [fillScreen_eq]

/-- Witness of C4: the screen filled with dark grey. -/
theorem fillScreen_sentinel_witness :
    samplePalette.Distinct ∧ (sampleState 0).Separate ∧ IsSentinel samplePalette 0x7BEF 1 ∧
    ∀ i, i < GxGDE060BA_BUFFER_SIZE →
      (fillScreen samplePalette (sampleState 0) 0x7BEF).active i = 1 * 0x55 :=
  have h1 : samplePalette.Distinct := by simp [Palette.Distinct, samplePalette]
  have h2 : (sampleState 0).Separate := by simp [State.Separate, sampleState]
  have h3 : IsSentinel samplePalette 0x7BEF 1 := by simp [IsSentinel, samplePalette]
  ⟨h1, h2, h3, (fillScreen_sentinel samplePalette h1 (sampleState 0) h2 _ _ h3).1⟩

/-! ## The waveform tables -/

theorem waveValue_eq_mix (seed : Nat → Nat → Nat) (num frame : Nat) :
    waveValue seed num frame =
      mix (seed (num &&& 3) frame) (seed ((num >>> 2) &&& 3) frame)
        (seed ((num >>> 4) &&& 3) frame) (seed ((num >>> 6) &&& 3) frame) := rfl

theorem mix_twoBit : ∀ a < 4, ∀ b < 4, ∀ c < 4, ∀ d < 4,
    mix a b c d = (a <<< 0) + (b <<< 2) + (c <<< 4) + (d <<< 6) := by
  decide

theorem field_mix : ∀ a < 4, ∀ b < 4, ∀ c < 4, ∀ d < 4,
    field (mix a b c d) 0 = a ∧ field (mix a b c d) 2 = b ∧
    field (mix a b c d) 4 = c ∧ field (mix a b c d) 6 = d := by
  decide

theorem and_three_lt (n : Nat) : n &&& 3 < 4 := by
  have h := Nat.and_pow_two_sub_one_eq_mod n 2
  simp at h
  rw [h]
  omega

/-- The inner loop nest entry by entry: the rows below `n` of column `frame`
are computed, every other entry is as before. -/
theorem expand_inner (g : Nat → Nat) (frame n : Nat) (table : Nat → Nat → Nat) :
    (List.range n).foldl (fun table num => setEntry table num frame (g num)) table =
      fun b f => if b < n ∧ f = frame then g b else table b f := by
  induction n with
  | zero => simp
  | succ n ih =>
    rw [List.range_succ, List.foldl_append, ih]
    simp only [List.foldl_cons, List.foldl_nil, setEntry]
    funext b f
    by_cases hf : f = frame
    · by_cases hb : b = n
      · simp [setEntry, hf, hb]
      · by_cases hlt : b < n
        · have : b < n + 1 := by omega
          simp [setEntry, hf, hb, hlt, this]
        · have : ¬ b < n + 1 := by omega
          simp [setEntry, hf, hb, hlt, this]
    · simp [setEntry, hf]

/-- The loop nest of `init_wave_table` entry by entry. -/
theorem expand_eq (seed : Nat → Nat → Nat) (frames : Nat) (table : Nat → Nat → Nat) :
    expand seed frames table =
      fun b f => if b < WAVE_TABLE_SIZE ∧ f < frames then waveValue seed b f else table b f := by
  unfold expand
  induction frames with
  | zero => simp
  | succ m ih =>
    rw [List.range_succ m, List.foldl_append, ih]
    simp only [List.foldl_cons, List.foldl_nil]
    rw [expand_inner (fun num => waveValue seed num m)]
    funext b f
    by_cases hb : b < WAVE_TABLE_SIZE
    · by_cases hf : f = m
      · simp [hb, hf]
      · by_cases hlt : f < m
        · have : f < m + 1 := by omega
          simp [hb, hf, hlt, this]
        · have : ¬ f < m + 1 := by omega
          simp [hb, hf, hlt, this]
    · simp [hb]

theorem waveValue_eq_fieldwise (seed : Nat → Nat → Nat) (frames : Nat)
    (h : TwoBit seed frames) (b f : Nat) (hf : f < frames) :
    waveValue seed b f = fieldwise seed b f := by
  rw [waveValue_eq_mix, mix_twoBit _ (h _ (and_three_lt _) f hf) _ (h _ (and_three_lt _) f hf)
    _ (h _ (and_three_lt _) f hf) _ (h _ (and_three_lt _) f hf)]
  simp [fieldwise, Finset.sum_range_succ]

theorem expand_idem (seed : Nat → Nat → Nat) (frames : Nat) (table : Nat → Nat → Nat) :
    expand seed frames (expand seed frames table) = expand seed frames table := by
  rw [expand_eq seed frames (expand seed frames table), expand_eq seed frames table]
  funext b f
  by_cases h : b < WAVE_TABLE_SIZE ∧ f < frames <;> simp [h]

/-- C5: with 2-bit seed entries and whatever the two tables held before,
after `init_wave_table` every entry `[b][f]` with `b` in 0..255 and `f` below
the frame count of its table is the sum of the seed values of the four 2-bit
fields of `b`, each shifted back into the slot it came from; and a second
run from the same seeds leaves the same tables. -/
theorem init_wave_table_fieldwise (w : Waveform) (s : State)
    (hb : TwoBit w.wave_begin_60 w.GxGDE060BA_FRAME_BEGIN_SIZE)
    (he : TwoBit w.wave_end_60 w.GxGDE060BA_FRAME_END_SIZE) :
    (∀ b, b < 256 → ∀ f, f < w.GxGDE060BA_FRAME_BEGIN_SIZE →
      (init_wave_table w s).wave_begin_table b f = fieldwise w.wave_begin_60 b f) ∧
    (∀ b, b < 256 → ∀ f, f < w.GxGDE060BA_FRAME_END_SIZE →
      (init_wave_table w s).wave_end_table b f = fieldwise w.wave_end_60 b f) ∧
    init_wave_table w (init_wave_table w s) = init_wave_table w s := by
  refine ⟨?_, ?_, ?_⟩
  · intro b hb256 f hf
    have h : b < WAVE_TABLE_SIZE ∧ f < w.GxGDE060BA_FRAME_BEGIN_SIZE := ⟨hb256, hf⟩
    simp only [init_wave_table, expand_eq, if_pos h]
    exact waveValue_eq_fieldwise _ _ hb b f hf
  · intro b hb256 f hf
    have h : b < WAVE_TABLE_SIZE ∧ f < w.GxGDE060BA_FRAME_END_SIZE := ⟨hb256, hf⟩
    simp only [init_wave_table, expand_eq, if_pos h]
    exact waveValue_eq_fieldwise _ _ he b f hf
  · simp only [init_wave_table, expand_idem]

/-- Witness of C5: the sample waveform has 2-bit seeds. -/
theorem init_wave_table_fieldwise_witness :
    TwoBit sampleWaveform.wave_begin_60 sampleWaveform.GxGDE060BA_FRAME_BEGIN_SIZE ∧
    TwoBit sampleWaveform.wave_end_60 sampleWaveform.GxGDE060BA_FRAME_END_SIZE ∧
    init_wave_table sampleWaveform (init_wave_table sampleWaveform (sampleState 0)) =
      init_wave_table sampleWaveform (sampleState 0) :=
  have h1 : TwoBit sampleWaveform.wave_begin_60 sampleWaveform.GxGDE060BA_FRAME_BEGIN_SIZE := by
    intro level _ f _
    simp only [sampleWaveform]
    omega
  have h2 : TwoBit sampleWaveform.wave_end_60 sampleWaveform.GxGDE060BA_FRAME_END_SIZE := by
    intro level _ f _
    simp only [sampleWaveform]
    omega
  ⟨h1, h2, (init_wave_table_fieldwise sampleWaveform (sampleState 0) h1 h2).2.2⟩

/-- Field `j` of the computed byte is the seed value of field `j` of `b`. -/
theorem field_waveValue (seed : Nat → Nat → Nat) (frames : Nat) (h : TwoBit seed frames)
    (b f : Nat) (hf : f < frames) (j : Nat) (hj : j < 4) :
    field (waveValue seed b f) (2 * j) = seed (field b (2 * j)) f := by
  obtain ⟨h0, h2, h4, h6⟩ := field_mix _ (h _ (and_three_lt (b)) f hf)
    _ (h _ (and_three_lt (b >>> 2)) f hf) _ (h _ (and_three_lt (b >>> 4)) f hf)
    _ (h _ (and_three_lt (b >>> 6)) f hf)
  rw [waveValue_eq_mix]
  have hc : j = 0 ∨ j = 1 ∨ j = 2 ∨ j = 3 := by omega
  rcases hc with rfl | rfl | rfl | rfl
  · simpa [field] using h0
  · simpa [field] using h2
  · simpa [field] using h4
  · simpa [field] using h6

theorem expand_fieldLocal (seed : Nat → Nat → Nat) (frames : Nat) (h : TwoBit seed frames)
    (table : Nat → Nat → Nat) : FieldLocal (expand seed frames table) frames := by
  intro f hf b hb b1 hb1 j hj hbb
  have c : b < WAVE_TABLE_SIZE ∧ f < frames := ⟨hb, hf⟩
  have c1 : b1 < WAVE_TABLE_SIZE ∧ f < frames := ⟨hb1, hf⟩
  simp only [expand_eq, if_pos c, if_pos c1]
  rw [field_waveValue seed frames h b f hf j hj, field_waveValue seed frames h b1 f hf j hj, hbb]

theorem perturbationLocal_of_fieldLocal (table : Nat → Nat → Nat) (frames : Nat)
    (h : FieldLocal table frames) : PerturbationLocal table frames := by
  intro f hf b hb b1 hb1 k _ hagree j hj hjk
  exact h f hf b hb b1 hb1 j hj (hagree j hj hjk)

/-- C6: with 2-bit seed entries, in both generated tables and at every frame,
two byte values that differ in one 2-bit field only have entries that agree
on the other three fields; a field of the entry depends only on the same
field of the byte value and on the frame. -/
theorem init_wave_table_position_independent (w : Waveform) (s : State)
    (hb : TwoBit w.wave_begin_60 w.GxGDE060BA_FRAME_BEGIN_SIZE)
    (he : TwoBit w.wave_end_60 w.GxGDE060BA_FRAME_END_SIZE) :
    PerturbationLocal (init_wave_table w s).wave_begin_table w.GxGDE060BA_FRAME_BEGIN_SIZE ∧
    PerturbationLocal (init_wave_table w s).wave_end_table w.GxGDE060BA_FRAME_END_SIZE ∧
    FieldLocal (init_wave_table w s).wave_begin_table w.GxGDE060BA_FRAME_BEGIN_SIZE ∧
    FieldLocal (init_wave_table w s).wave_end_table w.GxGDE060BA_FRAME_END_SIZE := by
  have h1 : FieldLocal (init_wave_table w s).wave_begin_table w.GxGDE060BA_FRAME_BEGIN_SIZE :=
    expand_fieldLocal _ _ hb _
  have h2 : FieldLocal (init_wave_table w s).wave_end_table w.GxGDE060BA_FRAME_END_SIZE :=
    expand_fieldLocal _ _ he _
  exact ⟨perturbationLocal_of_fieldLocal _ _ h1, perturbationLocal_of_fieldLocal _ _ h2, h1, h2⟩

/-- Witness of C6: the tables of the sample waveform. -/
theorem init_wave_table_position_independent_witness :
    TwoBit sampleWaveform.wave_begin_60 sampleWaveform.GxGDE060BA_FRAME_BEGIN_SIZE ∧
    TwoBit sampleWaveform.wave_end_60 sampleWaveform.GxGDE060BA_FRAME_END_SIZE ∧
    PerturbationLocal (init_wave_table sampleWaveform (sampleState 0)).wave_begin_table
      sampleWaveform.GxGDE060BA_FRAME_BEGIN_SIZE :=
  have h1 : TwoBit sampleWaveform.wave_begin_60 sampleWaveform.GxGDE060BA_FRAME_BEGIN_SIZE := by
    intro level _ f _
    simp only [sampleWaveform]
    omega
  have h2 : TwoBit sampleWaveform.wave_end_60 sampleWaveform.GxGDE060BA_FRAME_END_SIZE := by
    intro level _ f _
    simp only [sampleWaveform]
    omega
  ⟨h1, h2, (init_wave_table_position_independent sampleWaveform (sampleState 0) h1 h2).1⟩

/-! ## The refresh driver -/

theorem padLoop_apply (table : Nat → Nat → Nat) (frame n : Nat) :
    ∀ (d i : Nat) (row : Nat → Nat), n - i = d → ∀ j,
      padLoop table frame n i row j = if i ≤ j ∧ j < n then table 0xFF frame else row j := by
  intro d
  induction d with
  | zero =>
    intro i row h j
    have hi : ¬ i < n := by omega
    have hc : ¬ (i ≤ j ∧ j < n) := by omega
    rw [padLoop, if_neg hi, if_neg hc]
  | succ d ih =>
    intro i row h j
    have hi : i < n := by omega
    rw [padLoop, if_pos hi, ih (i + 1) _ (by omega)]
    by_cases hj : j = i
    · subst hj
      have hc : ¬ (j + 1 ≤ j ∧ j < n) := by omega
      have hc1 : j ≤ j ∧ j < n := by omega
      rw [if_neg hc, if_pos hc1, Function.update_same]
    · rw [Function.update_noteq hj]
      by_cases hc : i ≤ j ∧ j < n
      · have hc1 : i + 1 ≤ j ∧ j < n := by omega
        rw [if_pos hc, if_pos hc1]
      · have hc1 : ¬ (i + 1 ≤ j ∧ j < n) := by omega
        rw [if_neg hc, if_neg hc1]

/-- The two inner loops together: from the counters `i` and `x` on, byte `j`
of the row is the table entry of source byte `x + (j - i)`, or the entry of
`0xFF` beyond the size of the source. -/
theorem fillRow_apply (table : Nat → Nat → Nat) (bitmap : Nat → Nat) (size frame n : Nat) :
    ∀ (d i x : Nat) (row : Nat → Nat), n - i = d → ∀ j,
      padLoop table frame n (lookupLoop table bitmap size frame n i x row).1
          (lookupLoop table bitmap size frame n i x row).2 j =
        if i ≤ j ∧ j < n then
          (if x + (j - i) < size then table (bitmap (x + (j - i))) frame else table 0xFF frame)
        else row j := by
  intro d
  induction d with
  | zero =>
    intro i x row h j
    have hi : ¬ (i < n ∧ x < size) := by omega
    have hc : ¬ (i ≤ j ∧ j < n) := by omega
    rw [lookupLoop, if_neg hi, padLoop_apply table frame n _ i row rfl, if_neg hc, if_neg hc]
  | succ d ih =>
    intro i x row h j
    by_cases hx : x < size
    · have hi : i < n ∧ x < size := ⟨by omega, hx⟩
      rw [lookupLoop, if_pos hi, ih (i + 1) (x + 1) _ (by omega)]
      by_cases hj : j = i
      · subst hj
        have hc : ¬ (j + 1 ≤ j ∧ j < n) := by omega
        have hc1 : j ≤ j ∧ j < n := by omega
        have hx0 : x + (j - j) < size := by omega
        have e : x + (j - j) = x := by omega
        rw [if_neg hc, if_pos hc1, if_pos hx0, Function.update_same, e]
      · rw [Function.update_noteq hj]
        by_cases hc : i ≤ j ∧ j < n
        · have hc1 : i + 1 ≤ j ∧ j < n := by omega
          have e : x + 1 + (j - (i + 1)) = x + (j - i) := by omega
          rw [if_pos hc, if_pos hc1, e]
        · have hc1 : ¬ (i + 1 ≤ j ∧ j < n) := by omega
          rw [if_neg hc, if_neg hc1]
    · have hi : ¬ (i < n ∧ x < size) := by omega
      rw [lookupLoop, if_neg hi, padLoop_apply table frame n _ i row rfl]
      by_cases hc : i ≤ j ∧ j < n
      · have hx1 : ¬ x + (j - i) < size := by omega
        rw [if_pos hc, if_pos hc, if_neg hx1]
      · rw [if_neg hc, if_neg hc]

theorem scanLine_snd (table : Nat → Nat → Nat) (bitmap : Nat → Nat) (size frame : Nat)
    (acc : (Nat → Nat) × List Event) (line : Nat) :
    (scanLine table bitmap size frame acc line).2 =
      acc.2 ++ [Event.send_row (rowBytes (scanLine table bitmap size frame acc line).1) 800] :=
  rfl

theorem scanLine_rowBytes (table : Nat → Nat → Nat) (bitmap : Nat → Nat) (size frame : Nat)
    (acc : (Nat → Nat) × List Event) (line : Nat) :
    rowBytes (scanLine table bitmap size frame acc line).1 =
      paddedRow table bitmap size frame line := by
  unfold rowBytes paddedRow scanLine
  apply List.map_congr_left
  intro j hj
  have hj200 : j < 200 := by simpa using hj
  have hc : 0 ≤ j ∧ j < 200 := ⟨by omega, hj200⟩
  have e : line * 200 + (j - 0) = 200 * line + j := by omega
  show padLoop table frame 200 (lookupLoop table bitmap size frame 200 0 (line * 200) acc.1).1
      (lookupLoop table bitmap size frame 200 0 (line * 200) acc.1).2 j = _
  rw [fillRow_apply table bitmap size frame 200 _ 0 (line * 200) acc.1 rfl, if_pos hc, e]

/-- The `line` loop run for `h` lines: one `send_row` per line, and the row
buffer is left holding the row of the last line. -/
theorem lines_fold (table : Nat → Nat → Nat) (bitmap : Nat → Nat) (size frame : Nat)
    (acc : (Nat → Nat) × List Event) (h : Nat) :
    ((List.range h).foldl (scanLine table bitmap size frame) acc).2 =
        acc.2 ++ (List.range h).map
          (fun line => Event.send_row (paddedRow table bitmap size frame line) 800) ∧
    (0 < h → rowBytes ((List.range h).foldl (scanLine table bitmap size frame) acc).1 =
        paddedRow table bitmap size frame (h - 1)) := by
  induction h with
  | zero => simp
  | succ h ih =>
    rw [List.range_succ, List.foldl_append]
    simp only [List.foldl_cons, List.foldl_nil, List.map_append, List.map_cons, List.map_nil]
    constructor
    · rw [scanLine_snd, scanLine_rowBytes, ih.1, List.append_assoc]
    · intro _
      rw [scanLine_rowBytes]
      simp

theorem scanFrame_snd (table : Nat → Nat → Nat) (bitmap : Nat → Nat) (size : Nat)
    (acc : (Nat → Nat) × List Event) (frame : Nat) :
    (scanFrame table bitmap size acc frame).2 =
      acc.2 ++ frameTrace (paddedRow table bitmap size) frame := by
  unfold scanFrame
  obtain ⟨h1, h2⟩ := lines_fold table bitmap size frame (acc.1, acc.2 ++ [Event.start_scan]) 600
  show ((List.range 600).foldl (scanLine table bitmap size frame)
      (acc.1, acc.2 ++ [Event.start_scan])).2 ++
      [Event.send_row (rowBytes ((List.range 600).foldl (scanLine table bitmap size frame)
        (acc.1, acc.2 ++ [Event.start_scan])).1) 800] = _
  rw [h1, h2 (by decide)]
  simp [frameTrace]

theorem frames_fold (table : Nat → Nat → Nat) (bitmap : Nat → Nat) (size : Nat)
    (acc : (Nat → Nat) × List Event) (m : Nat) :
    ((List.range m).foldl (scanFrame table bitmap size) acc).2 =
      acc.2 ++ (List.range m).flatMap (frameTrace (paddedRow table bitmap size)) := by
  induction m with
  | zero => simp
  | succ m ih =>
    rw [List.range_succ, List.foldl_append]
    simp only [List.foldl_cons, List.foldl_nil]
    rw [scanFrame_snd, ih, List.flatMap_append]
    simp

/-- The trace of one pass: `powerOn`, the frames in order, `powerOff`. -/
theorem scan_snd (table : Nat → Nat → Nat) (frames : Nat) (bitmap : Nat → Nat) (size : Nat)
    (row : Nat → Nat) :
    (scan table frames bitmap size row).2 = passTrace (paddedRow table bitmap size) frames := by
  unfold scan
  show ((List.range frames).foldl (scanFrame table bitmap size) (row, [Event.powerOn])).2 ++
    [Event.powerOff] = _
  rw [frames_fold]
  simp [passTrace]

theorem eraseBitmap_snd (w : Waveform) (s : State) (bitmap : Nat → Nat) (size : Nat) :
    (eraseBitmap w s bitmap size).2 =
      passTrace (paddedRow s.wave_begin_table bitmap size) w.GxGDE060BA_FRAME_BEGIN_SIZE :=
  scan_snd _ _ _ _ _

theorem drawBitmap_snd (w : Waveform) (s : State) (bitmap : Nat → Nat) (size : Nat) :
    (drawBitmap w s bitmap size).2 =
      passTrace (paddedRow s.wave_end_table bitmap size) (w.GxGDE060BA_FRAME_END_SIZE - 2) :=
  scan_snd _ _ _ _ _

theorem paddedRow_full (table : Nat → Nat → Nat) (src : Nat → Nat) (frame line : Nat)
    (hl : line < 600) :
    paddedRow table src sizeof_epd_buffer_type frame line = plainRow table src frame line := by
  unfold paddedRow plainRow
  apply List.map_congr_left
  intro i hi
  have hi200 : i < 200 := by simpa using hi
  have hs : sizeof_epd_buffer_type = 120000 := by decide
  have hlt : 200 * line + i < sizeof_epd_buffer_type := by
    rw [hs]
    omega
  rw [if_pos hlt]

theorem frameTrace_full (table : Nat → Nat → Nat) (src : Nat → Nat) (frame : Nat) :
    frameTrace (paddedRow table src sizeof_epd_buffer_type) frame =
      frameTrace (plainRow table src) frame := by
  have h : (List.range 600).map (fun line =>
      Event.send_row (paddedRow table src sizeof_epd_buffer_type frame line) 800) =
      (List.range 600).map (fun line => Event.send_row (plainRow table src frame line) 800) := by
    apply List.map_congr_left
    intro line hl
    rw [paddedRow_full table src frame line (List.mem_range.mp hl)]
  unfold frameTrace
  rw [paddedRow_full table src frame 599 (by omega), h]

theorem passTrace_full (table : Nat → Nat → Nat) (src : Nat → Nat) (frames : Nat) :
    passTrace (paddedRow table src sizeof_epd_buffer_type) frames =
      passTrace (plainRow table src) frames := by
  unfold passTrace
  have h : frameTrace (paddedRow table src sizeof_epd_buffer_type) =
      frameTrace (plainRow table src) := funext (frameTrace_full table src)
  rw [h]

theorem paddedRow_zero (table : Nat → Nat → Nat) (src : Nat → Nat) :
    paddedRow table src 0 = fun frame _ => List.replicate 200 (table 0xFF frame) := by
  funext frame line
  simp [paddedRow]

theorem startScans_frameTrace (rowOf : Nat → Nat → List Nat) (frame : Nat) :
    startScans (frameTrace rowOf frame) = 1 := by
  have h : List.count Event.start_scan
      ((List.range 600).map (fun line => Event.send_row (rowOf frame line) 800)) = 0 := by
    rw [List.count_eq_zero]
    simp
  simp [startScans, frameTrace, List.count_cons, List.count_append, h]

theorem startScans_frames (rowOf : Nat → Nat → List Nat) (frames : Nat) :
    startScans ((List.range frames).flatMap (frameTrace rowOf)) = frames := by
  induction frames with
  | zero => simp [startScans]
  | succ m ih =>
    rw [List.range_succ, List.flatMap_append]
    unfold startScans at ih ⊢
    rw [List.count_append, ih]
    have h := startScans_frameTrace rowOf m
    unfold startScans at h
    simp [h]

theorem startScans_passTrace (rowOf : Nat → Nat → List Nat) (frames : Nat) :
    startScans (passTrace rowOf frames) = frames := by
  have h := startScans_frames rowOf frames
  unfold startScans at h ⊢
  simp [passTrace, List.count_cons, List.count_append, h]

theorem update_snd (w : Waveform) (s : State) :
    (update w s).2 =
      passTrace (plainRow s.wave_begin_table s.erase) w.GxGDE060BA_FRAME_BEGIN_SIZE ++
      passTrace (plainRow s.wave_end_table s.active) (w.GxGDE060BA_FRAME_END_SIZE - 2) := by
  show (eraseBitmap w s s.erase sizeof_epd_buffer_type).2 ++
      (drawBitmap w (eraseBitmap w s s.erase sizeof_epd_buffer_type).1
        (eraseBitmap w s s.erase sizeof_epd_buffer_type).1.active sizeof_epd_buffer_type).2 = _
  rw [eraseBitmap_snd, drawBitmap_snd, passTrace_full, passTrace_full]
  rfl

theorem drawPixel_erase (pal : Palette) (s : State) (hsep : s.Separate) (x y : Int)
    (color : Nat) : (drawPixel pal s x y color).erase = s.erase := by
  have h : s.p_erase_buffer ≠ s.p_active_buffer := fun h => hsep h.symm
  funext j
  simp only [drawPixel]
  split_ifs <;> simp [orField, State.setActive, State.erase, h]

theorem fillScreen_erase (pal : Palette) (s : State) (hsep : s.Separate) (color : Nat) :
    (fillScreen pal s color).erase = s.erase := by
  have h : s.p_erase_buffer ≠ s.p_active_buffer := fun h => hsep h.symm
  funext j
  rw [fillScreen_eq]
  simp [State.erase, h]

/-- C7: `update()` exchanges the two pointers and changes no byte of either
buffer: the reference buffer after the call is the buffer that was active,
with its content, and the active buffer is the former reference buffer; the
pixels drawn before `update()` are the reference content after it, which the
erase pass of the next `update()` reads, and a `drawPixel` or `fillScreen`
after `update()` does not alter that content. -/
theorem update_swaps_buffers (pal : Palette) (w : Waveform) (s : State) (hsep : s.Separate) :
    (update w s).1.p_erase_buffer = s.p_active_buffer ∧
    (update w s).1.p_active_buffer = s.p_erase_buffer ∧
    (update w s).1.FMSC_SRAM = s.FMSC_SRAM ∧
    (update w s).1.erase = s.active ∧
    (update w s).1.active = s.erase ∧
    (∀ x y c, (update w (drawPixel pal s x y c)).1.erase = (drawPixel pal s x y c).active) ∧
    (update w (update w s).1).2 =
      passTrace (plainRow s.wave_begin_table s.active) w.GxGDE060BA_FRAME_BEGIN_SIZE ++
      passTrace (plainRow s.wave_end_table s.erase) (w.GxGDE060BA_FRAME_END_SIZE - 2) ∧
    (∀ x y c, (drawPixel pal (update w s).1 x y c).erase = s.active) ∧
    (∀ c, (fillScreen pal (update w s).1 c).erase = s.active) := by
  have hsep2 : (update w s).1.Separate := fun h => hsep h.symm
  refine ⟨rfl, rfl, rfl, rfl, rfl, fun _ _ _ => rfl, ?_, ?_, ?_⟩
  · rw [update_snd]
    rfl
  · intro x y c
    rw [drawPixel_erase pal _ hsep2]
    rfl
  · intro c
    rw [fillScreen_erase pal _ hsep2]
    rfl

/-- Witness of C7: one refresh of the sample state. -/
theorem update_swaps_buffers_witness :
    (sampleState 0).Separate ∧
    (update sampleWaveform (sampleState 0)).1.p_erase_buffer = BufferId.epd_sram_buffer1 ∧
    (update sampleWaveform (sampleState 0)).1.p_active_buffer = BufferId.epd_sram_buffer2 :=
  have h : (sampleState 0).Separate := by simp [State.Separate, sampleState]
  ⟨h, (update_swaps_buffers samplePalette sampleWaveform (sampleState 0) h).1,
    (update_swaps_buffers samplePalette sampleWaveform (sampleState 0) h).2.1⟩

/-- C8: with both buffers of 120000 bytes, the trace of `update()` is the
erase pass followed by the draw pass; in every frame `f` of the erase pass the
row sent for line `l < 600` is the 200 bytes `wave_begin_table[R[200*l+i]][f]`
of the reference buffer `R`, in every frame of the draw pass it is the 200
bytes `wave_end_table[A[200*l+i]][f]` of the active buffer `A`, and no byte of
a row is padding. -/
theorem update_rows (w : Waveform) (s : State) :
    (update w s).2 =
      passTrace (plainRow s.wave_begin_table s.erase) w.GxGDE060BA_FRAME_BEGIN_SIZE ++
      passTrace (plainRow s.wave_end_table s.active) (w.GxGDE060BA_FRAME_END_SIZE - 2) ∧
    (∀ f l, l < 600 → (plainRow s.wave_begin_table s.erase f l).length = 200 ∧
      ∀ i, i < 200 → (plainRow s.wave_begin_table s.erase f l)[i]? =
        some (s.wave_begin_table (s.erase (200 * l + i)) f)) ∧
    (∀ f l, l < 600 → (plainRow s.wave_end_table s.active f l).length = 200 ∧
      ∀ i, i < 200 → (plainRow s.wave_end_table s.active f l)[i]? =
        some (s.wave_end_table (s.active (200 * l + i)) f)) := by
  refine ⟨update_snd w s, ?_, ?_⟩
  · intro f l _
    refine ⟨by simp [plainRow], ?_⟩
    intro i hi
    simp [plainRow, hi]
  · intro f l _
    refine ⟨by simp [plainRow], ?_⟩
    intro i hi
    simp [plainRow, hi]

/-- Witness of C8: line 3 of the sample state has 200 bytes. -/
theorem update_rows_witness :
    (3 : Nat) < 600 ∧
    (plainRow (sampleState 0).wave_begin_table (sampleState 0).erase 0 3).length = 200 :=
  ⟨by decide, ((update_rows sampleWaveform (sampleState 0)).2.1 0 3 (by decide)).1⟩

/-- C9 as the code has it: the draw pass runs the frames `0 .. D-3`, that is
`D - 2` frames with `D - 2` calls of `start_scan` (none when `D < 2`), where
`D = GxGDE060BA_FRAME_END_SIZE`; the erase pass runs the frames `0 .. E-1`
with `E = GxGDE060BA_FRAME_BEGIN_SIZE` calls of `start_scan`; one `update()`
makes `E + (D - 2)` calls of `start_scan`. -/
theorem drawBitmap_frames (w : Waveform) (s : State) (bitmap : Nat → Nat) (size : Nat) :
    (drawBitmap w s bitmap size).2 =
      passTrace (paddedRow s.wave_end_table bitmap size) (w.GxGDE060BA_FRAME_END_SIZE - 2) ∧
    startScans (drawBitmap w s bitmap size).2 = w.GxGDE060BA_FRAME_END_SIZE - 2 ∧
    (eraseBitmap w s bitmap size).2 =
      passTrace (paddedRow s.wave_begin_table bitmap size) w.GxGDE060BA_FRAME_BEGIN_SIZE ∧
    startScans (eraseBitmap w s bitmap size).2 = w.GxGDE060BA_FRAME_BEGIN_SIZE ∧
    startScans (update w s).2 =
      w.GxGDE060BA_FRAME_BEGIN_SIZE + (w.GxGDE060BA_FRAME_END_SIZE - 2) := by
  refine ⟨drawBitmap_snd w s bitmap size, ?_, eraseBitmap_snd w s bitmap size, ?_, ?_⟩
  · rw [drawBitmap_snd, startScans_passTrace]
  · rw [eraseBitmap_snd, startScans_passTrace]
  · rw [update_snd]
    unfold startScans
    rw [List.count_append]
    have h1 := startScans_passTrace (plainRow s.wave_begin_table s.erase)
      w.GxGDE060BA_FRAME_BEGIN_SIZE
    have h2 := startScans_passTrace (plainRow s.wave_end_table s.active)
      (w.GxGDE060BA_FRAME_END_SIZE - 2)
    unfold startScans at h1 h2
    rw [h1, h2]

/-- C9 refuted as stated: with a draw seed table of width `D = 3` the draw pass
of `update()` calls `start_scan` once, not `D - 1 = 2` times. -/
theorem drawBitmap_frames_counterexample :
    startScans (drawBitmap sampleWaveform (sampleState 0) (sampleState 0).active
      sizeof_epd_buffer_type).2 ≠ sampleWaveform.GxGDE060BA_FRAME_END_SIZE - 1 := by
  rw [drawBitmap_snd, startScans_passTrace]
  decide

/-- C10: the trace of `eraseDisplay()` is one erase pass in which every byte of
every row, the 600 line rows and the trailing row of each frame, is
`wave_begin_table[0xFF][f]`; it is the same for two states that differ in the
contents of the two buffers. -/
theorem eraseDisplay_trace (pal : Palette) (w : Waveform) (s : State) :
    (eraseDisplay pal w s).2 =
      passTrace (fun f _ => List.replicate 200 (s.wave_begin_table 0xFF f))
        w.GxGDE060BA_FRAME_BEGIN_SIZE ∧
    ∀ m : BufferId → Nat → Nat,
      (eraseDisplay pal w { s with FMSC_SRAM := m }).2 = (eraseDisplay pal w s).2 := by
  have h : ∀ t : State, (eraseDisplay pal w t).2 =
      passTrace (fun f _ => List.replicate 200 (t.wave_begin_table 0xFF f))
        w.GxGDE060BA_FRAME_BEGIN_SIZE := by
    intro t
    show (eraseBitmap w t nullBitmap 0).2 = _
    rw [eraseBitmap_snd, paddedRow_zero]
  refine ⟨h s, ?_⟩
  intro m
  rw [h, h]

/-! ## Classification of colours -/

theorem fillData_eq_levelCode (pal : Palette) (color : Nat) :
    fillData pal color = levelCode pal color * 0x55 := by
  simp only [fillData, levelCode]
  split_ifs <;> rfl

theorem levelCode_nonSentinel (pal : Palette) (color : Nat) (h : NonSentinel pal color) :
    levelCode pal color = thresholdCode (brightness color) := by
  obtain ⟨h1, h2, h3, h4⟩ := h
  unfold levelCode thresholdCode
  rw [if_neg h1, if_neg h2, if_neg h3, if_neg h4]

theorem and_31_le (n : Nat) : n &&& 0x001F ≤ 31 := Nat.and_le_right

/-- The brightness of `drawPixel` and `fillScreen` never exceeds 31. -/
theorem brightness_le (color : Nat) : brightness color ≤ 31 := by
  unfold brightness
  have h1 : (((color &&& 0xF100) >>> 11) + ((color &&& 0x07E0) >>> 5)) &&& (color &&& 0x001F) ≤
      color &&& 0x001F := Nat.and_le_right
  have h2 := and_31_le color
  omega

theorem readPixel_of_byte (s : State) (hr : s.rotation < 4) (x y : Int) (hb : InBounds s x y)
    (k : Nat) (hk : k < 4)
    (h : ∀ i, i < GxGDE060BA_BUFFER_SIZE → s.active i = k * 0x55) : readPixel s x y = k := by
  obtain ⟨n1, n2, n3, n4⟩ := native_range s hr x y hb
  unfold readPixel
  rw [h _ (byteIndex_lt _ n1 n2 n3 n4)]
  obtain ⟨j, hj, hsh⟩ := shift_cases _ (bitOffset_cases (native s.rotation x y))
  rw [hsh]
  exact field_replicated k hk j hj

theorem fillScreen_white (pal : Palette) (hwb : pal.GxEPD_WHITE ≠ pal.GxEPD_BLACK)
    (t : State) (r : Nat) :
    ∀ i, i < GxGDE060BA_BUFFER_SIZE →
      State.active { fillScreen pal t pal.GxEPD_WHITE with rotation := r } i = 3 * 0x55 := by
  intro i hi
  have hd : fillData pal pal.GxEPD_WHITE = 0xFF := by
    unfold fillData
    rw [if_neg hwb, if_pos rfl]
  rw [fillScreen_eq]
  simp [State.active, hi, hd]

theorem eraseDisplay_fst (pal : Palette) (w : Waveform) (s : State) :
    (eraseDisplay pal w s).1 = fillScreen pal (eraseBitmap w s nullBitmap 0).1 pal.GxEPD_WHITE := by
  simp only [eraseDisplay, eraseBitmap]

/-- C11: after `eraseDisplay()`, whatever the two buffers held, every byte of
the active buffer is `0xFF`, and reading any pixel of the visible rectangle
under any rotation 0..3 gives White, code 3. -/
theorem eraseDisplay_white (pal : Palette) (hwb : pal.GxEPD_WHITE ≠ pal.GxEPD_BLACK)
    (w : Waveform) (s : State) :
    (∀ i, i < GxGDE060BA_BUFFER_SIZE → (eraseDisplay pal w s).1.active i = 0xFF) ∧
    (∀ r, r < 4 → ∀ x y, InBounds { (eraseDisplay pal w s).1 with rotation := r } x y →
      readPixel { (eraseDisplay pal w s).1 with rotation := r } x y = 3) := by
  rw [eraseDisplay_fst]
  generalize (eraseBitmap w s nullBitmap 0).1 = t
  constructor
  · intro i hi
    have hd : fillData pal pal.GxEPD_WHITE = 0xFF := by
      unfold fillData
      rw [if_neg hwb, if_pos rfl]
    rw [fillScreen_eq]
    simp [State.active, hi, hd]
  · intro r hr x y hb
    exact readPixel_of_byte _ hr x y hb 3 (by decide) (fillScreen_white pal hwb t r)

/-- Witness of C11: the sample state erased, read at (599, 799) under rotation 3. -/
theorem eraseDisplay_white_witness :
    samplePalette.GxEPD_WHITE ≠ samplePalette.GxEPD_BLACK ∧ 3 < 4 ∧
    InBounds { (eraseDisplay samplePalette sampleWaveform (sampleState 0)).1 with
      rotation := 3 } 599 799 ∧
    readPixel { (eraseDisplay samplePalette sampleWaveform (sampleState 0)).1 with
      rotation := 3 } 599 799 = 3 :=
  have h1 : samplePalette.GxEPD_WHITE ≠ samplePalette.GxEPD_BLACK := by
    simp [samplePalette]
  have h2 : InBounds { (eraseDisplay samplePalette sampleWaveform (sampleState 0)).1 with
      rotation := 3 } 599 799 := by
    simp [InBounds, width, height]
  ⟨h1, by decide, h2,
    (eraseDisplay_white samplePalette h1 sampleWaveform (sampleState 0)).2 3 (by decide) 599 799 h2⟩

/-- C12, what the code does: the three thresholds are 192, 384 and 288, the
chain never selects LightGrey, and since the brightness is at most 31 every
colour value that is no named grey level is classified Black by `drawPixel`
and by `fillScreen`, the almost white `0xFFFE` among them. -/
theorem nonSentinel_all_black (pal : Palette) (color : Nat) :
    ((3 * 128 / 2 : Nat) = 192 ∧ (3 * 256 / 2 : Nat) = 384 ∧ (3 * 192 / 2 : Nat) = 288) ∧
    (∀ b, thresholdCode b ≠ 2) ∧
    (color = pal.GxEPD_BLACK ∨ color = pal.GxEPD_WHITE ∨ color = pal.GxEPD_DARKGREY ∨
      color = pal.GxEPD_LIGHTGREY ∨ (levelCode pal color = 0 ∧ fillData pal color = 0x00)) ∧
    (brightness 0xFFFE = 28 ∧ levelCode samplePalette 0xFFFE = 0 ∧
      fillData samplePalette 0xFFFE = 0x00) := by
  refine ⟨⟨rfl, rfl, rfl⟩, ?_, ?_, by decide⟩
  · intro b
    unfold thresholdCode
    split_ifs <;> omega
  · by_cases h1 : color = pal.GxEPD_BLACK
    · exact Or.inl h1
    by_cases h2 : color = pal.GxEPD_WHITE
    · exact Or.inr (Or.inl h2)
    by_cases h3 : color = pal.GxEPD_DARKGREY
    · exact Or.inr (Or.inr (Or.inl h3))
    by_cases h4 : color = pal.GxEPD_LIGHTGREY
    · exact Or.inr (Or.inr (Or.inr (Or.inl h4)))
    have hl : levelCode pal color = 0 := by
      rw [levelCode_nonSentinel pal color ⟨h1, h2, h3, h4⟩]
      have hb := brightness_le color
      unfold thresholdCode
      rw [if_pos (by omega)]
    refine Or.inr (Or.inr (Or.inr (Or.inr ⟨hl, ?_⟩)))
    rw [fillData_eq_levelCode, hl]

/-- C13: the threshold chain shared by `drawPixel` and `fillScreen` is monotone
in the brightness value: `a ≤ b` gives `code a ≤ code b`, so the codes of
`a < b < c` are non-decreasing; the chain is the classification of every
colour value that is no named grey level. -/
theorem thresholdCode_monotone (a b : Nat) (hab : a ≤ b) :
    thresholdCode a ≤ thresholdCode b ∧
    (∀ c, b ≤ c → thresholdCode b ≤ thresholdCode c) ∧
    (∀ pal color, NonSentinel pal color →
      levelCode pal color = thresholdCode (brightness color) ∧
      fillData pal color = thresholdCode (brightness color) * 0x55) := by
  have hmono : ∀ u v : Nat, u ≤ v → thresholdCode u ≤ thresholdCode v := by
    intro u v huv
    unfold thresholdCode
    split_ifs <;> omega
  refine ⟨hmono a b hab, fun c hbc => hmono b c hbc, ?_⟩
  intro pal color hns
  refine ⟨levelCode_nonSentinel pal color hns, ?_⟩
  rw [fillData_eq_levelCode, levelCode_nonSentinel pal color hns]

/-- Witness of C13: the two sides of the threshold 192. -/
theorem thresholdCode_monotone_witness :
    (191 : Nat) ≤ 192 ∧ thresholdCode 191 ≤ thresholdCode 192 :=
  ⟨by decide, (thresholdCode_monotone 191 192 (by decide)).1⟩

/-- C18 as the code has it: the brightness of `drawPixel` and `fillScreen` is
`(R + G) AND B` with `R = (color & 0xF100) >> 11`, `G = (color & 0x07E0) >> 5`
and `B = color & 0x001F`: the first two components are summed, and the bitwise
AND of the sum with the third is taken. -/
theorem brightness_eq (color : Nat) :
    brightness color =
      (((color &&& 0xF100) >>> 11) + ((color &&& 0x07E0) >>> 5)) &&& (color &&& 0x001F) := by
  have h1 : (((color &&& 0xF100) >>> 11) + ((color &&& 0x07E0) >>> 5)) &&& (color &&& 0x001F) ≤
      color &&& 0x001F := Nat.and_le_right
  have h2 := and_31_le color
  unfold brightness
  exact Nat.mod_eq_of_lt (by omega)

/-- C18 refuted as stated: for the colour value `0x1000` the brightness is 0,
while `R + (G AND B)` is 2. -/
theorem brightness_counterexample :
    brightness 0x1000 ≠
      ((0x1000 &&& 0xF100) >>> 11) + (((0x1000 &&& 0x07E0) >>> 5) &&& (0x1000 &&& 0x001F)) := by
  decide

/-! ## The shape of the transport trace -/

theorem not_mem_frames (rowOf : Nat → Nat → List Nat) (frames : Nat) (e : Event)
    (he : e = Event.powerOn ∨ e = Event.powerOff) : e ∉ framesTrace rowOf frames := by
  intro hmem
  unfold framesTrace at hmem
  rw [List.mem_flatMap] at hmem
  obtain ⟨f, _, hf⟩ := hmem
  unfold frameTrace at hf
  rcases he with rfl | rfl <;> simp at hf

theorem passTrace_eq (rowOf : Nat → Nat → List Nat) (frames : Nat) :
    passTrace rowOf frames =
      [Event.powerOn] ++ framesTrace rowOf frames ++ [Event.powerOff] := by
  simp [passTrace, framesTrace]

theorem powerOns_passTrace (rowOf : Nat → Nat → List Nat) (frames : Nat) :
    powerOns (passTrace rowOf frames) = 1 := by
  have h : List.count Event.powerOn (framesTrace rowOf frames) = 0 :=
    List.count_eq_zero.mpr (not_mem_frames rowOf frames _ (Or.inl rfl))
  rw [passTrace_eq]
  simp [powerOns, List.count_append, List.count_cons, h]

theorem powerOffs_passTrace (rowOf : Nat → Nat → List Nat) (frames : Nat) :
    powerOffs (passTrace rowOf frames) = 1 := by
  have h : List.count Event.powerOff (framesTrace rowOf frames) = 0 :=
    List.count_eq_zero.mpr (not_mem_frames rowOf frames _ (Or.inr rfl))
  rw [passTrace_eq]
  simp [powerOffs, List.count_append, List.count_cons, h]

theorem sendRows_frameTrace (rowOf : Nat → Nat → List Nat) (frame : Nat) :
    sendRows (frameTrace rowOf frame) = 601 := by
  have h : List.countP isSendRow
      ((List.range 600).map (fun line => Event.send_row (rowOf frame line) 800)) = 600 := by
    rw [List.countP_map]
    have hall : ∀ l ∈ List.range 600,
        (isSendRow ∘ fun line => Event.send_row (rowOf frame line) 800) l = true := by
      intro l _
      rfl
    rw [List.countP_eq_length.mpr hall, List.length_range]
  unfold sendRows frameTrace
  rw [List.countP_cons, List.countP_append, h]
  simp [isSendRow]

theorem sendRows_frames (rowOf : Nat → Nat → List Nat) (frames : Nat) :
    sendRows (framesTrace rowOf frames) = 601 * frames := by
  induction frames with
  | zero => simp [sendRows, framesTrace]
  | succ m ih =>
    unfold framesTrace sendRows at ih ⊢
    rw [List.range_succ, List.flatMap_append, List.countP_append, ih]
    have h := sendRows_frameTrace rowOf m
    unfold sendRows at h
    simp [h]
    omega

theorem sendRows_passTrace (rowOf : Nat → Nat → List Nat) (frames : Nat) :
    sendRows (passTrace rowOf frames) = 601 * frames := by
  have h := sendRows_frames rowOf frames
  rw [passTrace_eq]
  unfold sendRows at h ⊢
  rw [List.countP_append, List.countP_append, h]
  simp [isSendRow]

/-- C15 as the code has it: `update()` runs `eraseBitmap` and `drawBitmap`, and
each of the two switches the power on before its frames and off after them.
The trace is `powerOn`, the erase frames, `powerOff`, `powerOn`, the draw
frames, `powerOff`: `powerOn` and `powerOff` occur twice each, the first event
is a `powerOn`, the last one a `powerOff`, and no frame holds a power call. -/
theorem update_power_sequence (w : Waveform) (s : State) :
    (update w s).2 =
      [Event.powerOn] ++
        framesTrace (plainRow s.wave_begin_table s.erase) w.GxGDE060BA_FRAME_BEGIN_SIZE ++
      [Event.powerOff, Event.powerOn] ++
        framesTrace (plainRow s.wave_end_table s.active) (w.GxGDE060BA_FRAME_END_SIZE - 2) ++
      [Event.powerOff] ∧
    powerOns (update w s).2 = 2 ∧ powerOffs (update w s).2 = 2 ∧
    (∀ rowOf frames, Event.powerOn ∉ framesTrace rowOf frames ∧
      Event.powerOff ∉ framesTrace rowOf frames) := by
  refine ⟨?_, ?_, ?_, ?_⟩
  · rw [update_snd, passTrace_eq, passTrace_eq]
    simp
  · rw [update_snd]
    have h1 := powerOns_passTrace (plainRow s.wave_begin_table s.erase)
      w.GxGDE060BA_FRAME_BEGIN_SIZE
    have h2 := powerOns_passTrace (plainRow s.wave_end_table s.active)
      (w.GxGDE060BA_FRAME_END_SIZE - 2)
    unfold powerOns at h1 h2 ⊢
    rw [List.count_append, h1, h2]
  · rw [update_snd]
    have h1 := powerOffs_passTrace (plainRow s.wave_begin_table s.erase)
      w.GxGDE060BA_FRAME_BEGIN_SIZE
    have h2 := powerOffs_passTrace (plainRow s.wave_end_table s.active)
      (w.GxGDE060BA_FRAME_END_SIZE - 2)
    unfold powerOffs at h1 h2 ⊢
    rw [List.count_append, h1, h2]
  · intro rowOf frames
    exact ⟨not_mem_frames rowOf frames _ (Or.inl rfl), not_mem_frames rowOf frames _ (Or.inr rfl)⟩

/-- C15 refuted as stated: one `update()` of the sample state calls `powerOn`
twice and `powerOff` twice, not once. -/
theorem update_power_sequence_counterexample :
    powerOns (update sampleWaveform (sampleState 0)).2 ≠ 1 ∧
    powerOffs (update sampleWaveform (sampleState 0)).2 ≠ 1 := by
  have h1 := powerOns_passTrace (plainRow (sampleState 0).wave_begin_table (sampleState 0).erase)
    sampleWaveform.GxGDE060BA_FRAME_BEGIN_SIZE
  have h2 := powerOns_passTrace (plainRow (sampleState 0).wave_end_table (sampleState 0).active)
    (sampleWaveform.GxGDE060BA_FRAME_END_SIZE - 2)
  have h3 := powerOffs_passTrace (plainRow (sampleState 0).wave_begin_table (sampleState 0).erase)
    sampleWaveform.GxGDE060BA_FRAME_BEGIN_SIZE
  have h4 := powerOffs_passTrace (plainRow (sampleState 0).wave_end_table (sampleState 0).active)
    (sampleWaveform.GxGDE060BA_FRAME_END_SIZE - 2)
  rw [update_snd]
  unfold powerOns at h1 h2 ⊢
  unfold powerOffs at h3 h4 ⊢
  rw [List.count_append, List.count_append, h1, h2, h3, h4]
  decide

/-- C17: for every source and size the trace of `eraseBitmap(bitmap, size)` is
one `powerOn`, then for each frame `0 .. GxGDE060BA_FRAME_BEGIN_SIZE - 1` in
order one `start_scan` followed by 601 `send_row` calls, the last of which
carries the row of line 599 again, then one `powerOff`. -/
theorem eraseBitmap_shape (w : Waveform) (s : State) (bitmap : Nat → Nat) (size : Nat) :
    (eraseBitmap w s bitmap size).2 =
      [Event.powerOn] ++
        (List.range w.GxGDE060BA_FRAME_BEGIN_SIZE).flatMap (fun f =>
          [Event.start_scan] ++
          (List.range 600).map (fun l =>
            Event.send_row (paddedRow s.wave_begin_table bitmap size f l) 800) ++
          [Event.send_row (paddedRow s.wave_begin_table bitmap size f 599) 800]) ++
      [Event.powerOff] ∧
    powerOns (eraseBitmap w s bitmap size).2 = 1 ∧
    powerOffs (eraseBitmap w s bitmap size).2 = 1 ∧
    startScans (eraseBitmap w s bitmap size).2 = w.GxGDE060BA_FRAME_BEGIN_SIZE ∧
    sendRows (eraseBitmap w s bitmap size).2 = 601 * w.GxGDE060BA_FRAME_BEGIN_SIZE ∧
    (∀ f l, (paddedRow s.wave_begin_table bitmap size f l).length = 200) := by
  refine ⟨?_, ?_, ?_, ?_, ?_, ?_⟩
  · have h : frameTrace (paddedRow s.wave_begin_table bitmap size) = fun f =>
        [Event.start_scan] ++
        (List.range 600).map (fun l =>
          Event.send_row (paddedRow s.wave_begin_table bitmap size f l) 800) ++
        [Event.send_row (paddedRow s.wave_begin_table bitmap size f 599) 800] := by
      funext f
      simp [frameTrace]
    rw [eraseBitmap_snd, passTrace_eq, framesTrace, h]
  · rw [eraseBitmap_snd, powerOns_passTrace]
  · rw [eraseBitmap_snd, powerOffs_passTrace]
  · rw [eraseBitmap_snd, startScans_passTrace]
  · rw [eraseBitmap_snd, sendRows_passTrace]
  · intro f l
    simp [paddedRow]

/-! ## The end-to-end scenario -/

set_option maxRecDepth 100000 in
theorem scenario_byte : ∀ old < 256,
    putField (putField (putField (putField old 6 0) 4 3) 2 1) 0 2 = 0x36 := by
  decide

theorem putField_mod4 (old a b c d : Nat) :
    putField (putField (putField (putField old 6 a) 4 b) 2 c) 0 d =
      putField (putField (putField (putField (old % 256) 6 a) 4 b) 2 c) 0 d := by
  rw [putField_mod old 6 a (by omega)]

theorem setActive_fields (s : State) (i v : Nat) :
    (s.setActive i v).rotation = s.rotation ∧
    (s.setActive i v).p_active_buffer = s.p_active_buffer :=
  ⟨rfl, rfl⟩

/-- The four pixels (0,0), (1,0), (2,0), (3,0) drawn under rotation 0 with the
codes `a`, `b`, `c`, `d` of their colours: byte 0 of the active buffer. -/
theorem drawPixel_four (pal : Palette) (s : State) (hr : s.rotation = 0) (c0 c1 c2 c3 : Nat) :
    (drawPixel pal (drawPixel pal (drawPixel pal (drawPixel pal s 0 0 c0) 1 0 c1) 2 0 c2)
      3 0 c3).active 0 =
      putField (putField (putField (putField (s.active 0) 6 (levelCode pal c0)) 4
        (levelCode pal c1)) 2 (levelCode pal c2)) 0 (levelCode pal c3) := by
  have hb : ∀ (t : State) (x : Int), t.rotation = 0 → 0 ≤ x → x < 4 → InBounds t x 0 := by
    intro t x ht h0 h4
    simp only [InBounds, width, height, ht]
    refine ⟨h0, ?_, le_refl _, ?_⟩
    · simp
      omega
    · simp
  have hn : ∀ (t : State) (x : Int), t.rotation = 0 → native t.rotation x 0 = (x, 0) := by
    intro t x ht
    simp [native, ht]
  have step : ∀ (t : State) (x : Int) (col : Nat), t.rotation = 0 → 0 ≤ x → x < 4 →
      drawPixel pal t x 0 col =
        t.setActive 0 (putField (t.active 0) (2 * (3 - x)).toNat (levelCode pal col)) := by
    intro t x col ht h0 h4
    rw [drawPixel_inBounds pal t (by omega) x 0 (hb t x ht h0 h4), hn t x ht]
    have e1 : byteIndex (x, 0) = 0 := by
      unfold byteIndex
      simp only
      omega
    have e2 : bitOffset (x, 0) = (2 * (3 - x)).toNat := by
      unfold bitOffset
      simp only
      omega
    rw [e1, e2]
  have hrs : ∀ (t : State) (i v : Nat), t.rotation = 0 → (t.setActive i v).rotation = 0 :=
    fun _ _ _ h => h
  rw [step s 0 c0 hr (by omega) (by omega)]
  rw [step (s.setActive 0 _) 1 c1 (hrs _ _ _ hr) (by omega) (by omega), setActive_active,
    setActive_setActive]
  rw [step (s.setActive 0 _) 2 c2 (hrs _ _ _ hr) (by omega) (by omega), setActive_active,
    setActive_setActive]
  rw [step (s.setActive 0 _) 3 c3 (hrs _ _ _ hr) (by omega) (by omega)]
  simp only [setActive_active, setActive_setActive]
  rfl

theorem entry_begin (w : Waveform) (t : State) (b f : Nat) (hb : b < 256)
    (hf : f < w.GxGDE060BA_FRAME_BEGIN_SIZE) :
    (init_wave_table w t).wave_begin_table b f = waveValue w.wave_begin_60 b f := by
  have h : b < WAVE_TABLE_SIZE ∧ f < w.GxGDE060BA_FRAME_BEGIN_SIZE := ⟨hb, hf⟩
  simp only [init_wave_table, expand_eq, if_pos h]

/-- C16 as the code has it: under rotation 0 the named levels Black, White,
DarkGrey, LightGrey drawn at (0,0), (1,0), (2,0), (3,0) make byte 0 of the
active buffer `0x36`.  With the seed values `0xC`, `0x4`, `0x8`, `0x0`, which
are no 2-bit codes, the entry `wave_begin_table[0x36][0]` is `0x31`: not the
identity byte, and not the field-by-field substitution either.  With 2-bit
seed values every field of the entry is the seed value of the same field of
`0x36`; for the 2-bit codes 3, 1, 2, 0 the entry is `0xC6`. -/
theorem end_to_end (pal : Palette) (hpal : pal.Distinct) (s : State) (hr : s.rotation = 0)
    (w : Waveform) (hf : 0 < w.GxGDE060BA_FRAME_BEGIN_SIZE) :
    (drawPixel pal (drawPixel pal (drawPixel pal (drawPixel pal s 0 0 pal.GxEPD_BLACK)
      1 0 pal.GxEPD_WHITE) 2 0 pal.GxEPD_DARKGREY) 3 0 pal.GxEPD_LIGHTGREY).active 0 = 0x36 ∧
    (w.wave_begin_60 0 0 = 0xC → w.wave_begin_60 1 0 = 0x4 → w.wave_begin_60 2 0 = 0x8 →
      w.wave_begin_60 3 0 = 0x0 →
      (init_wave_table w s).wave_begin_table 0x36 0 = 0x31 ∧
      (init_wave_table w s).wave_begin_table 0x36 0 ≠ 0x36) ∧
    (TwoBit w.wave_begin_60 w.GxGDE060BA_FRAME_BEGIN_SIZE →
      (init_wave_table w s).wave_begin_table 0x36 0 = fieldwise w.wave_begin_60 0x36 0 ∧
      ∀ j, j < 4 → field ((init_wave_table w s).wave_begin_table 0x36 0) (2 * j) =
        w.wave_begin_60 (field 0x36 (2 * j)) 0) ∧
    (init_wave_table exampleWaveform2 s).wave_begin_table 0x36 0 = 0xC6 := by
  refine ⟨?_, ?_, ?_, ?_⟩
  · rw [drawPixel_four pal s hr,
      levelCode_sentinel pal hpal _ 0 (Or.inl ⟨rfl, rfl⟩),
      levelCode_sentinel pal hpal _ 3 (Or.inr (Or.inr (Or.inr ⟨rfl, rfl⟩))),
      levelCode_sentinel pal hpal _ 1 (Or.inr (Or.inl ⟨rfl, rfl⟩)),
      levelCode_sentinel pal hpal _ 2 (Or.inr (Or.inr (Or.inl ⟨rfl, rfl⟩))),
      putField_mod4]
    exact scenario_byte _ (Nat.mod_lt _ (by decide))
  · intro h0 h1 h2 h3
    have he : (init_wave_table w s).wave_begin_table 0x36 0 = 0x31 := by
      rw [entry_begin w s _ _ (by decide) hf, waveValue_eq_mix]
      have e0 : (0x36 : Nat) &&& 3 = 2 := by decide
      have e1 : ((0x36 : Nat) >>> 2) &&& 3 = 1 := by decide
      have e2 : ((0x36 : Nat) >>> 4) &&& 3 = 3 := by decide
      have e3 : ((0x36 : Nat) >>> 6) &&& 3 = 0 := by decide
      rw [e0, e1, e2, e3, h0, h1, h2, h3]
      decide
    rw [he]
    exact ⟨rfl, by decide⟩
  · intro h2bit
    constructor
    · rw [entry_begin w s _ _ (by decide) hf]
      exact waveValue_eq_fieldwise _ _ h2bit _ _ hf
    · intro j hj
      rw [entry_begin w s _ _ (by decide) hf]
      exact field_waveValue _ _ h2bit _ _ hf j hj
  · rw [entry_begin exampleWaveform2 s _ _ (by decide) (by decide)]
    decide

/-- Witness of C16: the sample palette, the sample state and the example seed. -/
theorem end_to_end_witness :
    samplePalette.Distinct ∧ (sampleState 0).rotation = 0 ∧
    0 < exampleWaveform.GxGDE060BA_FRAME_BEGIN_SIZE ∧
    (init_wave_table exampleWaveform (sampleState 0)).wave_begin_table 0x36 0 = 0x31 :=
  have h1 : samplePalette.Distinct := by simp [Palette.Distinct, samplePalette]
  ⟨h1, rfl, by decide,
    ((end_to_end samplePalette h1 (sampleState 0) rfl exampleWaveform (by decide)).2.1
      rfl rfl rfl rfl).1⟩

/-- C16 refuted as stated: with the seed values `0xC`, `0x4`, `0x8`, `0x0` the
entry `wave_begin_table[0x36][0]` is not the sum of the seed values of the four
fields of `0x36` in their slots, nor that sum cut to a byte, and its 2-bit
fields are not the seed values of the fields of `0x36` cut to two bits. -/
theorem end_to_end_counterexample :
    (init_wave_table exampleWaveform (sampleState 0)).wave_begin_table 0x36 0 ≠
      fieldwise exampleSeed 0x36 0 ∧
    (init_wave_table exampleWaveform (sampleState 0)).wave_begin_table 0x36 0 ≠
      fieldwise exampleSeed 0x36 0 % 256 ∧
    ¬ (∀ j, j < 4 →
      field ((init_wave_table exampleWaveform (sampleState 0)).wave_begin_table 0x36 0) (2 * j) =
        exampleSeed (field 0x36 (2 * j)) 0 % 4) := by
  have he : (init_wave_table exampleWaveform (sampleState 0)).wave_begin_table 0x36 0 = 0x31 := by
    rw [entry_begin exampleWaveform (sampleState 0) _ _ (by decide) (by decide)]
    decide
  rw [he]
  refine ⟨by decide, by decide, ?_⟩
  intro h
  have h2 := h 2 (by decide)
  revert h2
  decide

/-! ## The addressing is a bijection -/

theorem address_eq (r : Nat) (hr : r < 4) (x y : Int) :
    address r x y = (byteIndex (native r x y), bitOffset (native r x y)) := by
  unfold address
  rw [rotate_eq_native r hr]
  have hi : ((native r x y).1 / 4 +
      (native r x y).2 * (GxGDE060BA_WIDTH : Int) / 4).toNat = byteIndex (native r x y) := by
    unfold byteIndex
    congr 1
    simp only [GxGDE060BA_WIDTH]
    omega
  simp only [hi]
  rfl

theorem native_injective (s : State) (hr : s.rotation < 4) (x y x1 y1 : Int)
    (h : native s.rotation x y = native s.rotation x1 y1) : x = x1 ∧ y = y1 := by
  have hc : s.rotation = 0 ∨ s.rotation = 1 ∨ s.rotation = 2 ∨ s.rotation = 3 := by omega
  rcases hc with hc | hc | hc | hc <;> rw [hc] at h <;> simp [native] at h <;> omega

theorem cell_injective (n m : Int × Int) (n1 : 0 ≤ n.1) (n2 : n.1 < 800) (n3 : 0 ≤ n.2)
    (m1 : 0 ≤ m.1) (m2 : m.1 < 800) (m3 : 0 ≤ m.2)
    (hi : byteIndex n = byteIndex m) (hs : bitOffset n = bitOffset m) : n = m := by
  unfold byteIndex at hi
  unfold bitOffset at hs
  apply Prod.ext <;> omega

/-- Two pixels of the visible rectangle with the same byte and the same shift
are the same pixel. -/
theorem pixel_injective (s : State) (hr : s.rotation < 4) (x y x1 y1 : Int)
    (hb : InBounds s x y) (hb1 : InBounds s x1 y1)
    (hi : byteIndex (native s.rotation x y) = byteIndex (native s.rotation x1 y1))
    (hs : bitOffset (native s.rotation x y) = bitOffset (native s.rotation x1 y1)) :
    x = x1 ∧ y = y1 := by
  obtain ⟨a1, a2, a3, _⟩ := native_range s hr x y hb
  obtain ⟨b1, b2, b3, _⟩ := native_range s hr x1 y1 hb1
  exact native_injective s hr x y x1 y1 (cell_injective _ _ a1 a2 a3 b1 b2 b3 hi hs)

/-- Every 2-bit field of every byte of the buffer is the cell of a pixel of
the visible rectangle. -/
theorem pixel_surjective (s : State) (hr : s.rotation < 4) (i sh : Nat)
    (hi : i < GxGDE060BA_BUFFER_SIZE) (hsh : sh = 0 ∨ sh = 2 ∨ sh = 4 ∨ sh = 6) :
    ∃ x y : Int, InBounds s x y ∧ byteIndex (native s.rotation x y) = i ∧
      bitOffset (native s.rotation x y) = sh := by
  have hs : GxGDE060BA_BUFFER_SIZE = 120000 := by decide
  rw [hs] at hi
  have hc : s.rotation = 0 ∨ s.rotation = 1 ∨ s.rotation = 2 ∨ s.rotation = 3 := by omega
  have key : ∃ nx ny : Int, 0 ≤ nx ∧ nx < 800 ∧ 0 ≤ ny ∧ ny < 600 ∧
      byteIndex (nx, ny) = i ∧ bitOffset (nx, ny) = sh := by
    refine ⟨4 * ((i : Int) % 200) + (3 - (sh : Int) / 2), (i : Int) / 200, ?_, ?_, ?_, ?_, ?_, ?_⟩
    · omega
    · omega
    · omega
    · omega
    · unfold byteIndex
      simp only
      omega
    · unfold bitOffset
      simp only
      omega
  obtain ⟨nx, ny, k1, k2, k3, k4, k5, k6⟩ := key
  rcases hc with hc | hc | hc | hc
  · refine ⟨nx, ny, ?_, ?_, ?_⟩
    · simp only [InBounds, width, height, hc]
      simp
      omega
    · simpa [native, hc] using k5
    · simpa [native, hc] using k6
  · have e : native s.rotation ny (799 - nx) = (nx, ny) := by
      rw [hc]
      simp [native]
    refine ⟨ny, 799 - nx, ?_, ?_, ?_⟩
    · simp only [InBounds, width, height, hc]
      simp
      omega
    · rw [e]
      exact k5
    · rw [e]
      exact k6
  · have e : native s.rotation (799 - nx) (599 - ny) = (nx, ny) := by
      rw [hc]
      simp [native]
    refine ⟨799 - nx, 599 - ny, ?_, ?_, ?_⟩
    · simp only [InBounds, width, height, hc]
      simp
      omega
    · rw [e]
      exact k5
    · rw [e]
      exact k6
  · have e : native s.rotation (599 - ny) nx = (nx, ny) := by
      rw [hc]
      simp [native]
    refine ⟨599 - ny, nx, ?_, ?_, ?_⟩
    · simp only [InBounds, width, height, hc]
      simp
      omega
    · rw [e]
      exact k5
    · rw [e]
      exact k6

/-- C19: for each rotation 0..3 the addressing of `drawPixel`, pixel to byte
index and field shift, is a bijection from the visible rectangle onto the
pairs of a byte index below 120000 and a shift in 0, 2, 4, 6: every pixel of
the rectangle addresses a byte inside the buffer, two different pixels never
share a field, and every field is addressed; an in-bounds `drawPixel` stores
at that byte and shift. -/
theorem address_bijective (s : State) (hr : s.rotation < 4) :
    Set.BijOn (fun p : Int × Int => address s.rotation p.1 p.2)
      {p | InBounds s p.1 p.2}
      {q | q.1 < 800 * 600 / 4 ∧ (q.2 = 0 ∨ q.2 = 2 ∨ q.2 = 4 ∨ q.2 = 6)} ∧
    (∀ pal x y color, InBounds s x y → drawPixel pal s x y color =
      s.setActive (address s.rotation x y).1
        (putField (s.active (address s.rotation x y).1) (address s.rotation x y).2
          (levelCode pal color))) := by
  refine ⟨⟨?_, ?_, ?_⟩, ?_⟩
  · intro p hp
    obtain ⟨n1, n2, n3, n4⟩ := native_range s hr p.1 p.2 hp
    show (address s.rotation p.1 p.2).1 < 800 * 600 / 4 ∧ _
    rw [address_eq _ hr]
    exact ⟨byteIndex_lt _ n1 n2 n3 n4, bitOffset_cases _⟩
  · intro p hp q hq hpq
    have hpq1 : address s.rotation p.1 p.2 = address s.rotation q.1 q.2 := hpq
    rw [address_eq _ hr, address_eq _ hr] at hpq1
    have h1 := congrArg Prod.fst hpq1
    have h2 := congrArg Prod.snd hpq1
    obtain ⟨e1, e2⟩ := pixel_injective s hr p.1 p.2 q.1 q.2 hp hq h1 h2
    exact Prod.ext e1 e2
  · intro q hq
    obtain ⟨x, y, hb, e1, e2⟩ := pixel_surjective s hr q.1 q.2 hq.1 hq.2
    refine ⟨(x, y), hb, ?_⟩
    show address s.rotation x y = q
    rw [address_eq _ hr, e1, e2]
  · intro pal x y color hb
    rw [address_eq _ hr]
    exact drawPixel_inBounds pal s hr x y hb color

/-- Witness of C19: rotation 1. -/
theorem address_bijective_witness :
    (sampleState 1).rotation < 4 ∧
    Set.BijOn (fun p : Int × Int => address (sampleState 1).rotation p.1 p.2)
      {p | InBounds (sampleState 1) p.1 p.2}
      {q | q.1 < 800 * 600 / 4 ∧ (q.2 = 0 ∨ q.2 = 2 ∨ q.2 = 4 ∨ q.2 = 6)} :=
  ⟨by decide, (address_bijective (sampleState 1) (by decide)).1⟩

/-! ## Sequences of `drawPixel` calls -/

set_option maxRecDepth 100000 in
theorem putField_lt_aux : ∀ old < 256, ∀ k < 4, ∀ c < 4, putField old (2 * (3 - k)) c < 256 := by
  decide

theorem putField_lt (old sh c : Nat) (hsh : sh = 0 ∨ sh = 2 ∨ sh = 4 ∨ sh = 6) (hc : c < 4) :
    putField old sh c < 256 := by
  obtain ⟨k, hk, rfl⟩ := shift_cases sh hsh
  rw [putField_mod old _ c hsh]
  exact putField_lt_aux (old % 256) (Nat.mod_lt _ (by decide)) k hk c hc

theorem drawPixel_noop (pal : Palette) (s : State) (x y : Int) (color : Nat)
    (h : ¬ InBounds s x y) : drawPixel pal s x y color = s := by
  have hn : x < 0 ∨ x ≥ width s ∨ y < 0 ∨ y ≥ height s := by
    unfold InBounds at h
    omega
  unfold drawPixel
  rw [if_pos hn]

theorem inBounds_congr (s t : State) (h : t.rotation = s.rotation) (x y : Int) :
    InBounds t x y ↔ InBounds s x y := by
  unfold InBounds width height
  rw [h]

theorem setActive_sram (t : State) (i v : Nat) (b : BufferId) (j : Nat) :
    (t.setActive i v).FMSC_SRAM b j =
      if b = t.p_active_buffer ∧ j = i then v else t.FMSC_SRAM b j := rfl

/-- An in-bounds `drawPixel` on a state with the rotation of `s`, in terms of
the cell of the pixel. -/
theorem drawPixel_cell (pal : Palette) (s t : State) (hr : s.rotation < 4)
    (hrot : t.rotation = s.rotation) (p : Int × Int) (hb : InBounds s p.1 p.2) (color : Nat) :
    drawPixel pal t p.1 p.2 color =
      t.setActive (cell s p).1
        (putField (t.active (cell s p).1) (cell s p).2 (levelCode pal color)) := by
  have hbt : InBounds t p.1 p.2 := (inBounds_congr s t hrot _ _).mpr hb
  rw [drawPixel_inBounds pal t (by omega) p.1 p.2 hbt, hrot]
  rfl

theorem cell_shift (s : State) (p : Int × Int) :
    (cell s p).2 = 0 ∨ (cell s p).2 = 2 ∨ (cell s p).2 = 4 ∨ (cell s p).2 = 6 :=
  bitOffset_cases _

theorem drawInv_nil (pal : Palette) (s : State) : DrawInv pal s s [] where
  rot := rfl
  act := rfl
  ers := rfl
  other := fun _ _ _ => rfl
  byte := fun op hop => absurd hop (List.not_mem_nil op)
  drawn := fun _ _ _ hex _ => by
    obtain ⟨op, hop, _⟩ := hex
    exact absurd hop (List.not_mem_nil op)
  kept := fun _ _ _ _ => rfl

theorem drawInv_skip (pal : Palette) (s t : State) (ops : List ((Int × Int) × Nat))
    (op : (Int × Int) × Nat) (hout : ¬ InBounds s op.1.1 op.1.2) (ih : DrawInv pal s t ops) :
    DrawInv pal s t (ops ++ [op]) where
  rot := ih.rot
  act := ih.act
  ers := ih.ers
  other := by
    intro b j hc
    apply ih.other b j
    rcases hc with hc | hc
    · exact Or.inl hc
    · exact Or.inr (fun o ho => hc o (List.mem_append_left _ ho))
  byte := by
    intro o ho hin
    rcases List.mem_append.mp ho with h | h
    · exact ih.byte o h hin
    · rw [List.mem_singleton.mp h] at hin
      exact absurd hin hout
  drawn := by
    intro j sh k hex hall
    apply ih.drawn j sh k
    · obtain ⟨o, ho, hin, hcell⟩ := hex
      rcases List.mem_append.mp ho with h | h
      · exact ⟨o, h, hin, hcell⟩
      · rw [List.mem_singleton.mp h] at hin
        exact absurd hin hout
    · exact fun o ho => hall o (List.mem_append_left _ ho)
  kept := by
    intro j sh hsh hnone
    exact ih.kept j sh hsh (fun o ho => hnone o (List.mem_append_left _ ho))

theorem drawInv_step (pal : Palette) (s t : State)
    (ops : List ((Int × Int) × Nat)) (op : (Int × Int) × Nat)
    (hin : InBounds s op.1.1 op.1.2) (ih : DrawInv pal s t ops) :
    DrawInv pal s
      (t.setActive (cell s op.1).1
        (putField (t.active (cell s op.1).1) (cell s op.1).2 (levelCode pal op.2)))
      (ops ++ [op]) where
  rot := ih.rot
  act := ih.act
  ers := ih.ers
  other := by
    intro b j hc
    have hne : ¬ (b = t.p_active_buffer ∧ j = (cell s op.1).1) := by
      rintro ⟨hb, hj⟩
      rcases hc with hc | hc
      · exact hc (hb.trans ih.act)
      · exact hc op (List.mem_append_right _ (List.mem_singleton.mpr rfl)) hin hj.symm
    rw [setActive_sram, if_neg hne]
    apply ih.other b j
    rcases hc with hc | hc
    · exact Or.inl hc
    · exact Or.inr (fun o ho => hc o (List.mem_append_left _ ho))
  byte := by
    intro o ho hino
    by_cases hj : (cell s o.1).1 = (cell s op.1).1
    · rw [hj, setActive_active]
      exact putField_lt _ _ _ (cell_shift s op.1) (levelCode_lt pal op.2)
    · rw [setActive_active_ne _ _ _ _ hj]
      rcases List.mem_append.mp ho with h | h
      · exact ih.byte o h hino
      · rw [List.mem_singleton.mp h] at hj
        exact absurd rfl hj
  drawn := by
    intro j sh k hex hall
    have hshv : sh = 0 ∨ sh = 2 ∨ sh = 4 ∨ sh = 6 := by
      obtain ⟨o, _, _, hcell⟩ := hex
      have h2 := congrArg Prod.snd hcell
      simp only at h2
      rw [← h2]
      exact cell_shift s o.1
    by_cases hc : cell s op.1 = (j, sh)
    · have hj : (cell s op.1).1 = j := congrArg Prod.fst hc
      have hs : (cell s op.1).2 = sh := congrArg Prod.snd hc
      have hk := hall op (List.mem_append_right _ (List.mem_singleton.mpr rfl)) hin hc
      rw [hj, hs, setActive_active, hk]
      exact field_putField_same _ _ _ hshv (by rw [← hk]; exact levelCode_lt pal op.2)
    · have hold : field (t.active j) sh = k := by
        apply ih.drawn j sh k
        · obtain ⟨o, ho, hino, hcell⟩ := hex
          rcases List.mem_append.mp ho with h | h
          · exact ⟨o, h, hino, hcell⟩
          · rw [List.mem_singleton.mp h] at hcell
            exact absurd hcell hc
        · exact fun o ho => hall o (List.mem_append_left _ ho)
      by_cases hj : j = (cell s op.1).1
      · have hs : sh ≠ (cell s op.1).2 := by
          intro hs
          exact hc (Prod.ext hj.symm hs.symm)
        rw [hj, setActive_active,
          field_putField_other _ _ _ _ (cell_shift s op.1) hshv hs (levelCode_lt pal op.2),
          ← hj]
        exact hold
      · rw [setActive_active_ne _ _ _ _ hj]
        exact hold
  kept := by
    intro j sh hshv hnone
    have hc : cell s op.1 ≠ (j, sh) :=
      hnone op (List.mem_append_right _ (List.mem_singleton.mpr rfl)) hin
    have hold : field (t.active j) sh = field (s.active j) sh :=
      ih.kept j sh hshv (fun o ho => hnone o (List.mem_append_left _ ho))
    by_cases hj : j = (cell s op.1).1
    · have hs : sh ≠ (cell s op.1).2 := by
        intro hs
        exact hc (Prod.ext hj.symm hs.symm)
      rw [hj, setActive_active,
        field_putField_other _ _ _ _ (cell_shift s op.1) hshv hs (levelCode_lt pal op.2), ← hj]
      exact hold
    · rw [setActive_active_ne _ _ _ _ hj]
      exact hold

/-- The state after a sequence of `drawPixel` calls. -/
theorem drawOps_inv (pal : Palette) (s : State) (hr : s.rotation < 4)
    (ops : List ((Int × Int) × Nat)) : DrawInv pal s (drawOps pal s ops) ops := by
  induction ops using List.reverseRecOn with
  | nil => exact drawInv_nil pal s
  | append_singleton l op ih =>
    have e : drawOps pal s (l ++ [op]) = drawPixel pal (drawOps pal s l) op.1.1 op.1.2 op.2 := by
      unfold drawOps
      rw [List.foldl_append]
      rfl
    rw [e]
    by_cases hin : InBounds s op.1.1 op.1.2
    · rw [drawPixel_cell pal s _ hr ih.rot op.1 hin]
      exact drawInv_step pal s _ l op hin ih
    · have hout : ¬ InBounds (drawOps pal s l) op.1.1 op.1.2 :=
        fun h => hin ((inBounds_congr s _ ih.rot _ _).mp h)
      rw [drawPixel_noop pal _ _ _ _ hout]
      exact drawInv_skip pal s _ l op hin ih

/-! ## `fillScreen` against `drawPixel` on every pixel -/

set_option maxRecDepth 100000 in
theorem byte_eq_fields : ∀ v < 256,
    v = field v 0 + 4 * field v 2 + 16 * field v 4 + 64 * field v 6 := by
  decide

theorem byte_of_fields (v : Nat) (hv : v < 256) (k : Nat) (h0 : field v 0 = k)
    (h2 : field v 2 = k) (h4 : field v 4 = k) (h6 : field v 6 = k) : v = k * 0x55 := by
  have h := byte_eq_fields v hv
  rw [h0, h2, h4, h6] at h
  omega

theorem foldl_drawPixel_eq_drawOps (pal : Palette) (s : State) (color : Nat)
    (pixels : List (Int × Int)) :
    pixels.foldl (fun t p => drawPixel pal t p.1 p.2 color) s =
      drawOps pal s (pixels.map (fun p => (p, color))) := by
  unfold drawOps
  rw [List.foldl_map]

/-- The pixels drawn one by one in one colour, when every pixel of the visible
rectangle is among them, leave the memory that `fillScreen` leaves. -/
theorem drawOps_cover (pal : Palette) (s : State) (hr : s.rotation < 4) (color : Nat)
    (pixels : List (Int × Int)) (hcover : ∀ x y, InBounds s x y → (x, y) ∈ pixels) :
    (drawOps pal s (pixels.map (fun p => (p, color)))).FMSC_SRAM =
      (fillScreen pal s color).FMSC_SRAM := by
  have inv := drawOps_inv pal s hr (pixels.map (fun p => (p, color)))
  have hk := levelCode_lt pal color
  funext b j
  rw [fillScreen_eq, fillData_eq_levelCode]
  by_cases hbj : b = s.p_active_buffer ∧ j < GxGDE060BA_BUFFER_SIZE
  · obtain ⟨hb, hj⟩ := hbj
    have hfield : ∀ sh, (sh = 0 ∨ sh = 2 ∨ sh = 4 ∨ sh = 6) →
        (drawOps pal s (pixels.map (fun p => (p, color)))).active j < 256 ∧
        field ((drawOps pal s (pixels.map (fun p => (p, color)))).active j) sh =
          levelCode pal color := by
      intro sh hsh
      obtain ⟨x, y, hin, e1, e2⟩ := pixel_surjective s hr j sh hj hsh
      have hmem : ((x, y), color) ∈ pixels.map (fun p => (p, color)) :=
        List.mem_map.mpr ⟨(x, y), hcover x y hin, rfl⟩
      have hcell : cell s (x, y) = (j, sh) := by
        unfold cell
        rw [e1, e2]
      constructor
      · have h := inv.byte ((x, y), color) hmem hin
        rw [hcell] at h
        exact h
      · apply inv.drawn j sh (levelCode pal color) ⟨((x, y), color), hmem, hin, hcell⟩
        intro o ho _ _
        obtain ⟨p, _, hp⟩ := List.mem_map.mp ho
        rw [← hp]
    have h0 := hfield 0 (Or.inl rfl)
    have h2 := hfield 2 (Or.inr (Or.inl rfl))
    have h4 := hfield 4 (Or.inr (Or.inr (Or.inl rfl)))
    have h6 := hfield 6 (Or.inr (Or.inr (Or.inr rfl)))
    have hv := byte_of_fields _ h0.1 _ h0.2 h2.2 h4.2 h6.2
    have hact : (drawOps pal s (pixels.map (fun p => (p, color)))).FMSC_SRAM b j =
        (drawOps pal s (pixels.map (fun p => (p, color)))).active j := by
      unfold State.active
      rw [inv.act, hb]
    rw [hact, hv]
    simp [hb, hj]
  · have hcond : b ≠ s.p_active_buffer ∨
        ∀ op ∈ pixels.map (fun p => (p, color)), InBounds s op.1.1 op.1.2 →
          (cell s op.1).1 ≠ j := by
      by_cases hb : b = s.p_active_buffer
      · right
        intro o _ hin hj
        obtain ⟨n1, n2, n3, n4⟩ := native_range s hr o.1.1 o.1.2 hin
        have hlt := byteIndex_lt _ n1 n2 n3 n4
        apply hbj
        refine ⟨hb, ?_⟩
        rw [← hj]
        exact hlt
      · exact Or.inl hb
    rw [inv.other b j hcond]
    simp [hbj]

theorem mem_allPixels (s : State) (x y : Int) (hb : InBounds s x y) : (x, y) ∈ allPixels s := by
  obtain ⟨h0, h1, h2, h3⟩ := hb
  unfold allPixels
  rw [List.mem_flatMap]
  have hx : x.toNat < (width s).toNat := by omega
  have hy : y.toNat < (height s).toNat := by omega
  refine ⟨x.toNat, List.mem_range.mpr hx, ?_⟩
  rw [List.mem_map]
  refine ⟨y.toNat, List.mem_range.mpr hy, ?_⟩
  apply Prod.ext
  · simp only
    omega
  · simp only
    omega

/-- C20: `fillScreen` and `drawPixel` classify every colour value alike, and
from any state the active buffer after `fillScreen(c)` is the active buffer
after `drawPixel(x, y, c)` called for every pixel of the visible rectangle;
the order of the calls does not matter, nor do calls outside the rectangle. -/
theorem fillScreen_eq_drawAll (pal : Palette) (s : State) (hr : s.rotation < 4) (color : Nat) :
    fillData pal color = levelCode pal color * 0x55 ∧
    ((allPixels s).foldl (fun t p => drawPixel pal t p.1 p.2 color) s).active =
      (fillScreen pal s color).active ∧
    (∀ pixels : List (Int × Int), (∀ x y, InBounds s x y → (x, y) ∈ pixels) →
      (pixels.foldl (fun t p => drawPixel pal t p.1 p.2 color) s).active =
        (fillScreen pal s color).active ∧
      (pixels.foldl (fun t p => drawPixel pal t p.1 p.2 color) s).FMSC_SRAM =
        (fillScreen pal s color).FMSC_SRAM) := by
  have gen : ∀ pixels : List (Int × Int), (∀ x y, InBounds s x y → (x, y) ∈ pixels) →
      (pixels.foldl (fun t p => drawPixel pal t p.1 p.2 color) s).active =
        (fillScreen pal s color).active ∧
      (pixels.foldl (fun t p => drawPixel pal t p.1 p.2 color) s).FMSC_SRAM =
        (fillScreen pal s color).FMSC_SRAM := by
    intro pixels hcover
    have hs := drawOps_cover pal s hr color pixels hcover
    have inv := drawOps_inv pal s hr (pixels.map (fun p => (p, color)))
    rw [foldl_drawPixel_eq_drawOps]
    refine ⟨?_, hs⟩
    funext i
    unfold State.active
    rw [hs, inv.act, fillScreen_eq]
  exact ⟨fillData_eq_levelCode pal color, (gen (allPixels s) (mem_allPixels s)).1, gen⟩

/-- Witness of C20: a colour that is no named grey level, under rotation 1. -/
theorem fillScreen_eq_drawAll_witness :
    (sampleState 1).rotation < 4 ∧
    ((allPixels (sampleState 1)).foldl
      (fun t p => drawPixel samplePalette t p.1 p.2 0x1234) (sampleState 1)).active =
      (fillScreen samplePalette (sampleState 1) 0x1234).active :=
  ⟨by decide, (fillScreen_eq_drawAll samplePalette (sampleState 1) (by decide) 0x1234).2.1⟩

/-! ## Drawing a bitmap -/

theorem drawBitmapAt_eq_drawOps (pal : Palette) (s : State) (x y : Int) (bitmap : Nat → Nat)
    (w h : Int) (color : Nat) :
    drawBitmapAt pal s x y bitmap w h color =
      drawOps pal s (bitmapOps pal x y bitmap w h color) := by
  unfold drawBitmapAt drawOps bitmapOps List.flatMap
  rw [List.foldl_flatten, List.foldl_map]
  congr 1
  funext t kx
  rw [List.foldl_map]

theorem toInt16_small (n : Nat) (h : n < 32768) : toInt16 n = (n : Int) := by
  unfold toInt16
  have e : n % 65536 = n := Nat.mod_eq_of_lt (by omega)
  rw [e, if_pos h]

theorem toUint16_small (v : Int) (h0 : 0 ≤ v) (h : v < 65536) : toUint16 v = v.toNat := by
  unfold toUint16
  congr 1
  omega

theorem levelCode_white (pal : Palette) (hwb : pal.GxEPD_WHITE ≠ pal.GxEPD_BLACK) :
    levelCode pal pal.GxEPD_WHITE = 3 := by
  unfold levelCode
  rw [if_neg hwb, if_pos rfl]

/-- The colour that the loop body selects for the bitmap position `(c, r)` of a
bitmap drawn at the origin, when its width is a multiple of 8 and the index
fits an `uint16_t`. -/
theorem pixelcolor_origin (pal : Palette) (bitmap : Nat → Nat) (w : Int) (hw8 : w % 8 = 0)
    (color : Nat) (c r : Int) (hc : 0 ≤ c) (hr : 0 ≤ r) (hw : 0 ≤ w)
    (hidx : r * (w / 8) + c / 8 < 65536) :
    pixelcolor pal bitmap w color c.toNat r.toNat =
      if bitmap (r * (w / 8) + c / 8).toNat &&& (0x80 >>> (c % 8).toNat) ≠ 0
      then pal.GxEPD_WHITE else color := by
  have hq : 0 ≤ w / 8 := Int.ediv_nonneg hw (by decide)
  have hrq : 0 ≤ r * (w / 8) := Int.mul_nonneg hr hq
  have e1 : ((r.toNat : Nat) : Int) * w / 8 = r * (w / 8) := by
    have hr' : ((r.toNat : Nat) : Int) = r := Int.toNat_of_nonneg hr
    have hw' : w = 8 * (w / 8) := by omega
    rw [hr']
    conv_lhs => rw [hw']
    rw [← mul_assoc, mul_comm r 8, mul_assoc, Int.mul_ediv_cancel_left _ (by decide)]
  have e2 : ((c.toNat : Nat) : Int) / 8 = c / 8 := by
    rw [Int.toNat_of_nonneg hc]
  have e3 : c.toNat % 8 = (c % 8).toNat := by omega
  have e4 : toUint16 (c / 8 + r * (w / 8)) = (r * (w / 8) + c / 8).toNat := by
    rw [toUint16_small _ (by omega) (by omega)]
    congr 1
    omega
  unfold pixelcolor
  simp only [e1, e2, e3, e4]

theorem bitmapOps_origin (pal : Palette) (bitmap : Nat → Nat) (w h : Int) (color : Nat) :
    bitmapOps pal 0 0 bitmap w h color =
      (List.range w.toNat).flatMap (fun kx =>
        (List.range h.toNat).map (fun ky =>
          ((toInt16 kx, toInt16 ky), pixelcolor pal bitmap w color kx ky))) := by
  have e0 : toUint16 0 = 0 := by decide
  unfold bitmapOps
  simp only [e0, Nat.zero_add, Nat.cast_zero, zero_add, sub_zero]

/-- A bitmap drawn at the origin: the pixel of the bitmap position `(c, r)`
holds the code of the colour that the loop body selects for it. -/
theorem drawBitmapAt_origin_raw (pal : Palette) (s : State) (hr : s.rotation < 4)
    (bitmap : Nat → Nat) (w h : Int) (hw : w ≤ 32767) (hh : h ≤ 32767) (color : Nat)
    (c r : Int) (hc0 : 0 ≤ c) (hcw : c < w) (hr0 : 0 ≤ r) (hrh : r < h)
    (hb : InBounds s c r) :
    readPixel (drawBitmapAt pal s 0 0 bitmap w h color) c r =
      levelCode pal (pixelcolor pal bitmap w color c.toNat r.toNat) := by
  have inv := drawOps_inv pal s hr (bitmapOps pal 0 0 bitmap w h color)
  have hmem : ∀ op, op ∈ bitmapOps pal 0 0 bitmap w h color ↔
      ∃ kx, kx < w.toNat ∧ ∃ ky, ky < h.toNat ∧
        ((toInt16 kx, toInt16 ky), pixelcolor pal bitmap w color kx ky) = op := by
    intro op
    rw [bitmapOps_origin, List.mem_flatMap]
    constructor
    · rintro ⟨kx, hkx, hop⟩
      obtain ⟨ky, hky, e⟩ := List.mem_map.mp hop
      exact ⟨kx, List.mem_range.mp hkx, ky, List.mem_range.mp hky, e⟩
    · rintro ⟨kx, hkx, ky, hky, e⟩
      exact ⟨kx, List.mem_range.mpr hkx, List.mem_map.mpr ⟨ky, List.mem_range.mpr hky, e⟩⟩
  rw [drawBitmapAt_eq_drawOps]
  unfold readPixel
  rw [inv.rot]
  apply inv.drawn
  · refine ⟨((c, r), pixelcolor pal bitmap w color c.toNat r.toNat), ?_, hb, rfl⟩
    rw [hmem]
    refine ⟨c.toNat, by omega, r.toNat, by omega, ?_⟩
    rw [toInt16_small _ (by omega), toInt16_small _ (by omega), Int.toNat_of_nonneg hc0,
      Int.toNat_of_nonneg hr0]
  · intro op hop hin hcell
    obtain ⟨kx, hkx, ky, hky, e⟩ := (hmem op).mp hop
    have h1 := congrArg Prod.fst hcell
    have h2 := congrArg Prod.snd hcell
    obtain ⟨ex, ey⟩ := pixel_injective s hr op.1.1 op.1.2 c r hin hb h1 h2
    rw [← e] at ex ey ⊢
    simp only at ex ey ⊢
    rw [toInt16_small _ (by omega)] at ex ey
    have hx : kx = c.toNat := by omega
    have hy : ky = r.toNat := by omega
    rw [hx, hy]

/-- A bitmap drawn at the origin, where the target coordinates are the bitmap
coordinates: with `x = 0`, `y = 0` and `w` a multiple of 8, every bitmap
position `(c, r)` with `0 <= c < w` and `0 <= r < h` that lies in the visible
rectangle and whose byte index `r*(w/8) + c/8` fits an `uint16_t` holds White
after the call if bit `0x80 >> (c mod 8)` of that bitmap byte is set, and the
code of `color` otherwise; the positions outside the rectangle do not disturb
it. -/
theorem drawBitmapAt_origin (pal : Palette) (hwb : pal.GxEPD_WHITE ≠ pal.GxEPD_BLACK)
    (s : State) (hr : s.rotation < 4) (bitmap : Nat → Nat) (w h : Int) (hw8 : w % 8 = 0)
    (hw : w ≤ 32767) (hh : h ≤ 32767) (color : Nat) (c r : Int) (hc0 : 0 ≤ c) (hcw : c < w)
    (hr0 : 0 ≤ r) (hrh : r < h) (hb : InBounds s c r) (hidx : r * (w / 8) + c / 8 < 65536) :
    readPixel (drawBitmapAt pal s 0 0 bitmap w h color) c r =
      if bitmap (r * (w / 8) + c / 8).toNat &&& (0x80 >>> (c % 8).toNat) ≠ 0 then 3
      else levelCode pal color := by
  rw [drawBitmapAt_origin_raw pal s hr bitmap w h hw hh color c r hc0 hcw hr0 hrh hb,
    pixelcolor_origin pal bitmap w hw8 color c r hc0 hr0 (by omega) hidx]
  split_ifs
  · exact levelCode_white pal hwb
  · rfl

/-- An instance of `drawBitmapAt_origin`: the first byte of a bitmap of 8 by 1
pixels, drawn at the origin under rotation 0. -/
theorem drawBitmapAt_origin_instance :
    samplePalette.GxEPD_WHITE ≠ samplePalette.GxEPD_BLACK ∧ (sampleState 0).rotation < 4 ∧
    (8 : Int) % 8 = 0 ∧ InBounds (sampleState 0) 5 0 ∧
    readPixel (drawBitmapAt samplePalette (sampleState 0) 0 0 clearBitmap 8 1 0x7BEF) 5 0 =
      if clearBitmap ((0 : Int) * (8 / 8) + 5 / 8).toNat &&& (0x80 >>> ((5 : Int) % 8).toNat) ≠ 0
      then 3 else levelCode samplePalette 0x7BEF :=
  have h1 : samplePalette.GxEPD_WHITE ≠ samplePalette.GxEPD_BLACK := by simp [samplePalette]
  have h2 : InBounds (sampleState 0) 5 0 := by simp [InBounds, width, height, sampleState]
  ⟨h1, by decide, by decide, h2,
    drawBitmapAt_origin samplePalette h1 (sampleState 0) (by decide) clearBitmap 8 1 (by decide)
      (by decide) (by decide) 0x7BEF 5 0 (by decide) (by decide) (by decide) (by decide) h2
      (by decide)⟩

set_option maxRecDepth 100000 in
theorem drawBitmapAt_row1 :
    readPixel (drawBitmapAt samplePalette (sampleState 0) 0 1 firstByteSet 8 2 0)
      (0 + 0) (1 + 0) = 0 := by
  decide

set_option maxRecDepth 100000 in
theorem drawBitmapAt_column8 :
    readPixel (drawBitmapAt samplePalette (sampleState 0) 8 0 firstByteSet 16 1 0)
      (8 + 0) (0 + 0) = 0 := by
  decide

theorem drawBitmapAt_wrapped :
    readPixel (drawBitmapAt samplePalette (sampleState 0) 0 0 farByteSet 1096 480 0) 0 479 = 0 := by
  have hb : InBounds (sampleState 0) 0 479 := by simp [InBounds, width, height, sampleState]
  rw [drawBitmapAt_origin_raw samplePalette (sampleState 0) (by decide) farByteSet 1096 480
    (by decide) (by decide) 0 0 479 (by decide) (by decide) (by decide) (by decide) hb]
  decide

/-- C14, the code at four inputs where it does not draw the bitmap position
that the target pixel stands for, on a white screen and in black.  A clear
bitmap of 16 by 1 pixels drawn at `x = -8`, `y = 0` should make the pixel
(0, 0), bitmap position (8, 0), black: the loop counter starts at 65528, no
round runs, and the pixel stays white.  A bitmap whose first byte is `0xFF`
should make the pixel of bitmap position (0, 0) white: drawn with 8 by 2
pixels at `x = 0`, `y = 1` the loop reads byte `0/8 + 1*8/8 = 1`, drawn with
16 by 1 pixels at `x = 8`, `y = 0` it reads byte `8/8 = 1`, and the pixel is
black.  A bitmap of 1096 by 480 pixels whose byte `479*137 = 65623` is `0xFF`,
drawn at the origin, should make the pixel (0, 479) white: the index is cut to
87, and the pixel is black. -/
theorem drawBitmapAt_failing_inputs :
    (InBounds (sampleState 0) (-8 + 8) (0 + 0) ∧
      readPixel (drawBitmapAt samplePalette (sampleState 0) (-8) 0 clearBitmap 16 1 0)
        (-8 + 8) (0 + 0) ≠
      if clearBitmap ((0 : Int) * (16 / 8) + 8 / 8).toNat &&& (0x80 >>> ((8 : Int) % 8).toNat) ≠ 0
      then 3 else levelCode samplePalette 0) ∧
    (InBounds (sampleState 0) (0 + 0) (1 + 0) ∧
      readPixel (drawBitmapAt samplePalette (sampleState 0) 0 1 firstByteSet 8 2 0)
        (0 + 0) (1 + 0) ≠
      if firstByteSet ((0 : Int) * (8 / 8) + 0 / 8).toNat &&& (0x80 >>> ((0 : Int) % 8).toNat) ≠ 0
      then 3 else levelCode samplePalette 0) ∧
    (InBounds (sampleState 0) (8 + 0) (0 + 0) ∧
      readPixel (drawBitmapAt samplePalette (sampleState 0) 8 0 firstByteSet 16 1 0)
        (8 + 0) (0 + 0) ≠
      if firstByteSet ((0 : Int) * (16 / 8) + 0 / 8).toNat &&& (0x80 >>> ((0 : Int) % 8).toNat) ≠ 0
      then 3 else levelCode samplePalette 0) ∧
    (InBounds (sampleState 0) 0 479 ∧
      readPixel (drawBitmapAt samplePalette (sampleState 0) 0 0 farByteSet 1096 480 0) 0 479 ≠
      if farByteSet ((479 : Int) * (1096 / 8) + 0 / 8).toNat &&&
        (0x80 >>> ((0 : Int) % 8).toNat) ≠ 0
      then 3 else levelCode samplePalette 0) := by
  have e : drawBitmapAt samplePalette (sampleState 0) (-8) 0 clearBitmap 16 1 0 =
      sampleState 0 := by
    have e0 : ((-8 : Int) + 16 - (toUint16 (-8) : Int)).toNat = 0 := by decide
    unfold drawBitmapAt
    rw [e0]
    rfl
  refine ⟨⟨?_, ?_⟩, ⟨?_, ?_⟩, ⟨?_, ?_⟩, ⟨?_, ?_⟩⟩
  · simp [InBounds, width, height, sampleState]
  · rw [e]
    decide
  · simp [InBounds, width, height, sampleState]
  · rw [drawBitmapAt_row1]
    decide
  · simp [InBounds, width, height, sampleState]
  · rw [drawBitmapAt_column8]
    decide
  · simp [InBounds, width, height, sampleState]
  · rw [drawBitmapAt_wrapped]
    decide


end GxGDE060BA
